import Mathlib

/-!
# TextIOC: scrolling input field, keymap cycling and wrapped-text printing

A shallow embedding of the three example programs of the repository

* `examples/graphx/auto-scrolling-input/src/main.c` (`input`),
* `examples/fontlib/prgm-name-input/src/main.c` (`switch_keymaps`),
* `examples/fontlib/wrap-text/src/main.c` (`print_text`),

together with the routines of `textioc.h` they call.

Conventions.  `uint24_t` and `uint8_t` values are natural numbers reduced modulo
`2^24` and `2^8` where the C arithmetic can wrap.  Pointers into `buffer` are
indices (`buffer` itself is index `0`).  A C string is the list of its characters
before the terminator; every byte from the terminator on reads as NUL.
-/

namespace TextIOC

/-! ## Machine arithmetic -/

/-- Conversion of an arithmetic result to `uint24_t` (the 24-bit `unsigned int` of the
target). -/
def to_uint24 (n : Nat) : Nat := n % 16777216

/-- Conversion of an arithmetic result to `uint8_t`. -/
def to_uint8 (n : Nat) : Nat := n % 256

/-- The difference `a - b` of two `uint24_t` values (or of two pointers, passed
as a `uint24_t` argument), computed modulo `2^24`. -/
def sub_uint24 (a b : Nat) : Nat := (a + 16777216 - b % 16777216) % 16777216

/-- The NUL character, the string terminator. -/
def NUL : Char := Char.ofNat 0

/-! ## textioc.h: width providers -/

/-- A width provider: the `get_char_width` member of `textio_library_routines_t`. -/
abbrev WidthProvider := Char → Nat

/-- The homescreen wrapper `textio_os_GetGlyphWidth`: the font is monospaced. -/
def textio_os_GetGlyphWidth (_codepoint : Char) : Nat := 1

/-! ## textioc.h: print formats and output data -/

/-- Value of `TEXTIO_FORMAT_LEFT_MARGIN_FLUSH`. -/
def TEXTIO_FORMAT_LEFT_MARGIN_FLUSH : Nat := 1

/-- Value of `TEXTIO_FORMAT_CENTERED`. -/
def TEXTIO_FORMAT_CENTERED : Nat := 2

/-- Value of `TEXTIO_FORMAT_RIGHT_MARGIN_FLUSH`. -/
def TEXTIO_FORMAT_RIGHT_MARGIN_FLUSH : Nat := 3

/-- The record `textio_output_data_t`. -/
structure textio_output_data_t where
  tab_width : Nat
  newline : Char
  print_format : Nat
  max_line_width : Nat
deriving DecidableEq, Repr

/-- The initialiser `TEXTIO_FONTLIB_OUTPUT_DATA`; `LCD_WIDTH` comes from `tice.h`,
which is not part of the repository, and is a parameter. -/
def TEXTIO_FONTLIB_OUTPUT_DATA (LCD_WIDTH : Nat) : textio_output_data_t :=
  { tab_width := 12, newline := Char.ofNat 10, print_format := 1, max_line_width := LCD_WIDTH }

/-! ## auto-scrolling-input: the keymap -/

/-- The bytes of the string literal `letters` of `input`: the 56 characters written
in the literal followed by the terminator the compiler appends. -/
def letters : List Char :=
  [NUL, NUL, NUL, NUL, NUL, NUL, NUL, NUL, NUL, NUL,
   Char.ofNat 34, 'W', 'R', 'M', 'H', NUL, NUL,
   '?', '[', 'V', 'Q', 'L', 'G', NUL, NUL,
   ':', 'Z', 'U', 'P', 'K', 'F', 'C', NUL,
   ' ', 'Y', 'T', 'O', 'J', 'E', 'B', NUL, NUL,
   'X', 'S', 'N', 'I', 'D', 'A',
   NUL, NUL, NUL, NUL, NUL, NUL, NUL, NUL,
   NUL]

/-- The read `keymap[offset]` of a C array with a signed index: defined only for an
index inside the array. -/
def keymap_at (keymap : List Char) (offset : Int) : Option Char :=
  if 0 ≤ offset then keymap.get? offset.toNat else none

/-! ## prgm-name-input: keymap switching -/

/-- The part of an input data structure (IDS) that `switch_keymaps` reads and writes
through `textio_GetCurrKeymapNum`, `textio_GetNumKeymaps` and
`textio_SetCurrKeymapNum`. -/
structure IDS where
  curr_keymap_num : Nat
  num_keymaps : Nat
deriving DecidableEq, Repr

/-- The function `switch_keymaps`; `curr_keymap_num` is a `uint8_t` local. -/
def switch_keymaps (ids : IDS) : IDS :=
  let curr_keymap_num := to_uint8 ids.curr_keymap_num
  let curr_keymap_num :=
    if curr_keymap_num < ids.num_keymaps then to_uint8 (curr_keymap_num + 1) else 0
  { ids with curr_keymap_num := curr_keymap_num }

/-! ## wrap-text: line alignment -/

/-- The x coordinate `print_text` passes to `fontlib_SetCursorPosition` for a line of
measured width `line_width` (the value of `textio_GetLineWidth`), in `uint24_t`
arithmetic. -/
def print_text_x (print_format max_line_width xPos line_width : Nat) : Nat :=
  if print_format = TEXTIO_FORMAT_RIGHT_MARGIN_FLUSH then
    sub_uint24 (sub_uint24 max_line_width xPos) line_width
  else if print_format = TEXTIO_FORMAT_CENTERED then
    sub_uint24 (sub_uint24 max_line_width xPos) line_width / 2
  else
    to_uint24 xPos

/-! ## textioc.h: buffer routines

The bodies of these routines are not part of the repository (only their
declarations in `textioc.h` and their callers are). -/

/-- The byte `*(buffer + i)` of a C string: NUL from the terminator on.  This is the
content of `char buffer[10]` for an index inside the array; the C code has no defined
value for a read beyond it. -/
def char_at (buffer : List Char) (i : Nat) : Char := buffer.getD i NUL

/-- Modelled from the spec: the body of `textio_GetStringWidthL(string, num_chars)` is
missing; `textioc.h` documents it as "Gets the width of num_chars characters in
string".  The sum of the provider widths of the `num_chars` characters starting at
index `string`, as a `uint24_t`. -/
def textio_GetStringWidthL (get_char_width : WidthProvider) (buffer : List Char) :
    Nat → Nat → Nat
  | _, 0 => 0
  | string, num_chars + 1 =>
      to_uint24 (get_char_width (char_at buffer string)
        + textio_GetStringWidthL get_char_width buffer (string + 1) num_chars)

/-- Modelled from the spec: the body of `textio_InsertChar(buffer, buffer_size,
character, location)` is missing.  Spec 4.2: shift the bytes from `location` to the
end of the string right by one and write `character` at `location`; fail (return 1,
here `true`) and leave the buffer unchanged if the resulting length would exceed
`buffer_size`. -/
def textio_InsertChar (buffer : List Char) (buffer_size : Nat) (character : Char)
    (location : Nat) : Bool × List Char :=
  if buffer.length + 1 > buffer_size then (true, buffer)
  else (false, buffer.take location ++ character :: buffer.drop location)

/-- Modelled from the spec: the body of `textio_ShiftDeleteChar(buffer, buffer_size,
character)` is missing.  Spec 4.2: remove the byte at `character` and shift the
remainder left by one, returning the width of the deleted character; return 0 and
change nothing if `character` is already at the end of the string. -/
def textio_ShiftDeleteChar (get_char_width : WidthProvider) (buffer : List Char)
    (_buffer_size : Nat) (character : Nat) : Nat × List Char :=
  if character < buffer.length then
    (to_uint24 (get_char_width (char_at buffer character)), buffer.eraseIdx character)
  else (0, buffer)

/-- Modelled from the spec: the body of `textio_DeleteString(string, length)` is
missing.  Spec 4.2: zero out `length` bytes at `string` without shifting; the C string
then ends at `string` (when it reached that far and `length` is not 0). -/
def textio_DeleteString (buffer : List Char) (string length : Nat) : List Char :=
  if length = 0 then buffer else buffer.take string

/-! ## auto-scrolling-input: the input loop -/

/-- Value of `INPUT_FIELD_X`. -/
def INPUT_FIELD_X : Nat := 100

/-- The variables of `input` that persist across iterations of its loop: the contents
of `buffer`, and `curr_char_ptr` and `first_visible_char` as indices into it. -/
structure InputState where
  buffer : List Char
  curr_char_ptr : Nat
  first_visible_char : Nat
deriving DecidableEq, Repr

/-- The state on entry to the loop: `buffer[10] = {0}`, both pointers at `buffer`. -/
def initial_state : InputState :=
  { buffer := [], curr_char_ptr := 0, first_visible_char := 0 }

/-- The expression `textio_GetStringWidthL(first_visible_char, curr_char_ptr -
first_visible_char)`: the measured width of the scroll window. -/
def window_width (get_char_width : WidthProvider) (buffer : List Char)
    (curr_char_ptr first_visible_char : Nat) : Nat :=
  textio_GetStringWidthL get_char_width buffer first_visible_char
    (sub_uint24 curr_char_ptr first_visible_char)

/-- The loop of lines 102-105:
`while (textio_GetStringWidthL(first_visible_char, curr_char_ptr - first_visible_char)
> visible_buffer_width) first_visible_char++;`, returning the final
`first_visible_char`. -/
def scroll_repair (get_char_width : WidthProvider) (visible_buffer_width : Nat)
    (buffer : List Char) (curr_char_ptr : Nat) (first_visible_char : Nat) : Nat :=
  if h : window_width get_char_width buffer curr_char_ptr first_visible_char
      > visible_buffer_width then
    scroll_repair get_char_width visible_buffer_width buffer curr_char_ptr
      (first_visible_char + 1)
  else first_visible_char
termination_by sub_uint24 curr_char_ptr first_visible_char
decreasing_by
  have h0 : sub_uint24 curr_char_ptr first_visible_char ≠ 0 := by
    intro h0
    simp [window_width, h0, textio_GetStringWidthL] at h
  simp only [sub_uint24] at h0 ⊢
  omega

/-- The value assigned to `cursor_x` in the condition of the loop of lines 72-75. -/
def cursor_x_at (get_char_width : WidthProvider) (buffer : List Char)
    (curr_char_ptr first_visible_char : Nat) : Nat :=
  to_uint24 (INPUT_FIELD_X
    + window_width get_char_width buffer curr_char_ptr first_visible_char)

/-- The loop of lines 72-75:
`while ((cursor_x = INPUT_FIELD_X + textio_GetStringWidthL(...)) - INPUT_FIELD_X >
visible_buffer_width) first_visible_char++;`, returning the final
`first_visible_char`. -/
def cursor_repair (get_char_width : WidthProvider) (visible_buffer_width : Nat)
    (buffer : List Char) (curr_char_ptr : Nat) (first_visible_char : Nat) : Nat :=
  if h : sub_uint24 (cursor_x_at get_char_width buffer curr_char_ptr first_visible_char)
      INPUT_FIELD_X > visible_buffer_width then
    cursor_repair get_char_width visible_buffer_width buffer curr_char_ptr
      (first_visible_char + 1)
  else first_visible_char
termination_by sub_uint24 curr_char_ptr first_visible_char
decreasing_by
  have h0 : sub_uint24 curr_char_ptr first_visible_char ≠ 0 := by
    intro h0
    have hw : window_width get_char_width buffer curr_char_ptr first_visible_char = 0 := by
      simp [window_width, h0, textio_GetStringWidthL]
    simp [cursor_x_at, hw, sub_uint24, to_uint24, INPUT_FIELD_X] at h
  simp only [sub_uint24] at h0 ⊢
  omega

/-- Lines 97-107, for the `character` read from the keymap: insert it at the cursor
when it is not NUL; when `textio_InsertChar` returns 0 advance the cursor and run the
loop of lines 102-105. -/
def insert_character (get_char_width : WidthProvider)
    (buffer_size visible_buffer_width : Nat) (character : Char) (s : InputState) :
    InputState :=
  if character ≠ NUL then
    let r := textio_InsertChar s.buffer buffer_size character s.curr_char_ptr
    if !r.1 then
      { buffer := r.2
        curr_char_ptr := s.curr_char_ptr + 1
        first_visible_char :=
          (scroll_repair get_char_width visible_buffer_width r.2 (s.curr_char_ptr + 1)
            s.first_visible_char) }
    else { s with buffer := r.2 }
  else s

/-- Lines 93-108, for the value `offset` returned by `textio_KeyToOffset()`: the keymap
is read only when `offset > -1`.  The result is `none` when that read falls outside
the keymap array. -/
def char_key (get_char_width : WidthProvider) (buffer_size visible_buffer_width : Nat)
    (keymap : List Char) (offset : Int) (s : InputState) : Option InputState :=
  if offset > -1 then
    match keymap_at keymap offset with
    | some character =>
        some (insert_character get_char_width buffer_size visible_buffer_width character s)
    | none => none
  else some s

/-- Lines 111-119 with `kb_Del` pressed. -/
def del_key (get_char_width : WidthProvider) (buffer_size : Nat) (s : InputState) :
    InputState :=
  if s.curr_char_ptr > 0 then
    let curr_char_ptr := s.curr_char_ptr - 1
    let first_visible_char :=
      if s.first_visible_char > 0 then s.first_visible_char - 1 else s.first_visible_char
    { buffer := (textio_ShiftDeleteChar get_char_width s.buffer buffer_size curr_char_ptr).2
      curr_char_ptr := curr_char_ptr
      first_visible_char := first_visible_char }
  else s

/-- Lines 121-127 with `kb_Clear` pressed. -/
def clear_key (buffer_size : Nat) (s : InputState) : InputState :=
  { buffer := textio_DeleteString s.buffer 0 buffer_size
    curr_char_ptr := 0
    first_visible_char := 0 }

/-- Lines 129-136 with `kb_Left` pressed. -/
def left_key (s : InputState) : InputState :=
  if s.curr_char_ptr > 0 then
    let first_visible_char :=
      if s.curr_char_ptr = s.first_visible_char + 1 ∧ s.first_visible_char > 0 then
        s.first_visible_char - 1
      else s.first_visible_char
    { s with first_visible_char := first_visible_char, curr_char_ptr := s.curr_char_ptr - 1 }
  else s

/-- Lines 138-145 with `kb_Right` pressed. -/
def right_key (get_char_width : WidthProvider) (visible_buffer_width : Nat)
    (s : InputState) : InputState :=
  if char_at s.buffer s.curr_char_ptr ≠ NUL then
    let curr_char_ptr := s.curr_char_ptr + 1
    let first_visible_char :=
      if textio_GetStringWidthL get_char_width s.buffer s.first_visible_char
          (to_uint24 (sub_uint24 curr_char_ptr s.first_visible_char + 1))
          > visible_buffer_width then
        s.first_visible_char + 1
      else s.first_visible_char
    { s with curr_char_ptr := curr_char_ptr, first_visible_char := first_visible_char }
  else s

/-- Lines 72-75 on the state: the scroll repair at the top of every iteration.  It is
the loop of the source while `first_visible_char ≤ curr_char_ptr`, where the measured
span lies inside `buffer`; with the cursor below `first_visible_char` the source
measures `2^24 - k` bytes, most of them outside the array, and the value computed here
(NUL for every such byte) no longer stands for it. -/
def top_repair (get_char_width : WidthProvider) (visible_buffer_width : Nat)
    (s : InputState) : InputState :=
  { s with first_visible_char :=
      (cursor_repair get_char_width visible_buffer_width s.buffer s.curr_char_ptr
        s.first_visible_char) }

/-- What one keypad scan of an iteration shows: the keys the loop tests, and the value
`textio_KeyToOffset()` returns for that scan. -/
structure Keys where
  offset : Int
  enter : Bool
  del : Bool
  clear : Bool
  left : Bool
  right : Bool
deriving DecidableEq, Repr

/-- One iteration of the `for (;;)` loop of `input` (lines 65-153) on the persistent
variables; drawing and the key wait do not change them. -/
def input_iteration (get_char_width : WidthProvider)
    (buffer_size visible_buffer_width : Nat) (keys : Keys) (s : InputState) :
    Option InputState :=
  let s := top_repair get_char_width visible_buffer_width s
  let after_char :=
    if !keys.enter then
      char_key get_char_width buffer_size visible_buffer_width letters keys.offset s
    else some s
  after_char.map fun s =>
    let s := if keys.del then del_key get_char_width buffer_size s else s
    let s := if keys.clear then clear_key buffer_size s else s
    let s := if keys.left then left_key s else s
    let s := if keys.right then right_key get_char_width visible_buffer_width s else s
    s

/-- The loop of `input` run on a sequence of keypad scans, from state `s`; it leaves
the loop after the iteration in which Enter is pressed. -/
def input_loop (get_char_width : WidthProvider) (buffer_size visible_buffer_width : Nat) :
    List Keys → InputState → Option InputState
  | [], s => some s
  | keys :: rest, s =>
      match input_iteration get_char_width buffer_size visible_buffer_width keys s with
      | none => none
      | some s1 =>
          if keys.enter then some s1
          else input_loop get_char_width buffer_size visible_buffer_width rest s1

/-- The operations of the loop on the input field, one per block of the loop body. -/
inductive InputOp where
  | repair
  | insert (character : Char)
  | delete
  | clear
  | left
  | right
deriving DecidableEq, Repr

/-- The effect of one operation. -/
def apply_op (get_char_width : WidthProvider) (buffer_size visible_buffer_width : Nat)
    (op : InputOp) (s : InputState) : InputState :=
  match op with
  | .repair => top_repair get_char_width visible_buffer_width s
  | .insert character =>
      insert_character get_char_width buffer_size visible_buffer_width character s
  | .delete => del_key get_char_width buffer_size s
  | .clear => clear_key buffer_size s
  | .left => left_key s
  | .right => right_key get_char_width visible_buffer_width s

/-- A sequence of operations applied from state `s`. -/
def run_ops (get_char_width : WidthProvider) (buffer_size visible_buffer_width : Nat)
    (ops : List InputOp) (s : InputState) : InputState :=
  ops.foldl (fun s op => apply_op get_char_width buffer_size visible_buffer_width op s) s

/-- A scan with no key down. -/
def no_keys : Keys :=
  { offset := -1, enter := false, del := false, clear := false, left := false,
    right := false }

/-! ## wrap-text: `print_text` -/

/-- The tab character. -/
def TAB : Char := Char.ofNat 9

/-- The newline character. -/
def NEWLINE : Char := Char.ofNat 10

/-- A call `print_text` makes to draw the characters of a line. -/
inductive DrawCall where
  | DrawString (string : List Char)
  | DrawGlyph (glyph : Char)
deriving DecidableEq, Repr

/-- One pass of the `for (;;)` loop of `print_text` that draws: the line start, the
arguments of `fontlib_SetCursorPosition`, and the glyph calls that follow. -/
structure PrintedLine where
  curr_line : Nat
  x : Nat
  y : Nat
  calls : List DrawCall
deriving DecidableEq, Repr

/-- The inner loop of lines 49-57: a tab is drawn as four spaces, a newline is not
drawn, every other character is drawn as its glyph. -/
def draw_chars (text : List Char) (curr_line next_line : Nat) : List DrawCall :=
  (List.range' curr_line (next_line - curr_line)).filterMap fun curr_char =>
    if char_at text curr_char = TAB then some (DrawCall.DrawString [' ', ' ', ' ', ' '])
    else if char_at text curr_char ≠ NEWLINE then
      some (DrawCall.DrawGlyph (char_at text curr_char))
    else none

/-- Value of the local `line_spacing` of `print_text`. -/
def line_spacing : Nat := 13

/-- What one pass of the loop of `print_text` draws (lines 41-57) for the line from
`curr_line` up to `next_line`, at height `yPos`.  The end-of-line argument `next_line -
1` is index arithmetic: for `next_line = text` (index 0), where the source passes the
pointer `text - 1`, it is 0. -/
def printed_line (GetLineWidth : textio_output_data_t → Nat → Nat → Nat)
    (output_data : textio_output_data_t) (text : List Char) (xPos max_line_width : Nat)
    (curr_line next_line yPos : Nat) : PrintedLine :=
  { curr_line := curr_line
    x := print_text_x output_data.print_format max_line_width xPos
      (GetLineWidth output_data curr_line (next_line - 1))
    y := yPos
    calls := draw_chars text curr_line next_line }

/-- The `for (;;)` loop of `print_text` (lines 34-62), bounded by `fuel` passes.
`GetLinePtr data curr_line line_num` and `GetLineWidth data line eol` stand for
`textio_GetLinePtr` and `textio_GetLineWidth`, whose bodies are not in the repository;
pointers into `text` are indices.  The result is `none` when `fuel` passes did not
reach a `return`. -/
def print_text_loop (GetLinePtr : textio_output_data_t → Nat → Nat → Nat)
    (GetLineWidth : textio_output_data_t → Nat → Nat → Nat)
    (output_data : textio_output_data_t) (text : List Char)
    (xPos max_line_width : Nat) : Nat → Nat → Nat → Option (List PrintedLine)
  | 0, _, _ => none
  | fuel + 1, curr_line, yPos =>
      let next_line := GetLinePtr output_data curr_line 1
      if curr_line = next_line then some []
      else
        let line :=
          printed_line GetLineWidth output_data text xPos max_line_width curr_line next_line
            yPos
        let yPos := to_uint8 (yPos + line_spacing)
        if yPos > 240 - line_spacing then some [line]
        else
          (print_text_loop GetLinePtr GetLineWidth output_data text xPos max_line_width
            fuel next_line yPos).map fun lines => line :: lines

/-- The function `print_text(text, xPos, yPos, max_line_width)`; `text` is index 0 and
`data` is initialised with `TEXTIO_FONTLIB_OUTPUT_DATA`. -/
def print_text (GetLinePtr : textio_output_data_t → Nat → Nat → Nat)
    (GetLineWidth : textio_output_data_t → Nat → Nat → Nat) (LCD_WIDTH : Nat)
    (fuel : Nat) (text : List Char) (xPos yPos max_line_width : Nat) :
    Option (List PrintedLine) :=
  print_text_loop GetLinePtr GetLineWidth (TEXTIO_FONTLIB_OUTPUT_DATA LCD_WIDTH) text
    (to_uint24 xPos) (to_uint24 max_line_width) fuel 0 (to_uint8 yPos)

/-! ## Sample data used in the examples below -/

/-- A proportional width provider: `W` is 30 pixels wide, every other glyph 10. -/
def sample_width : WidthProvider := fun c => if c = 'W' then 30 else 10

/-- A scan with only the key at keymap offset `offset` down. -/
def key_scan (offset : Int) : Keys := { no_keys with offset := offset }

/-- A scan with only `del` down. -/
def del_scan : Keys := { no_keys with del := true }

/-- A scan with only the left arrow down. -/
def left_scan : Keys := { no_keys with left := true }

/-- A scan with only the right arrow down. -/
def right_scan : Keys := { no_keys with right := true }

/-! ## Properties of the input field -/

/-- The scroll-window bound the loop tests: the measured width from
`first_visible_char` up to `curr_char_ptr` does not exceed `visible_buffer_width`. -/
abbrev window_fits (get_char_width : WidthProvider) (visible_buffer_width : Nat)
    (s : InputState) : Prop :=
  window_width get_char_width s.buffer s.curr_char_ptr s.first_visible_char
    ≤ visible_buffer_width

/-- The pointer ordering `buffer ≤ first_visible_char ≤ curr_char_ptr ≤ end of string`,
with the string inside its capacity and free of NUL, and the window empty only at the
buffer start. -/
def field_invariant (buffer_size : Nat) (s : InputState) : Prop :=
  s.first_visible_char ≤ s.curr_char_ptr ∧
    s.curr_char_ptr ≤ s.buffer.length ∧
    s.buffer.length ≤ buffer_size ∧
    (∀ c ∈ s.buffer, c ≠ NUL) ∧
    (s.first_visible_char = s.curr_char_ptr → s.curr_char_ptr = 0)

/-- The operations one iteration with the scan `keys` performs, in the order of the
loop body; `character` is the keymap entry read in the character-key step. -/
def iteration_ops (keys : Keys) (character : Char) : List InputOp :=
  [InputOp.repair]
    ++ (if !keys.enter && decide (keys.offset > -1) then [InputOp.insert character] else [])
    ++ (if keys.del then [InputOp.delete] else [])
    ++ (if keys.clear then [InputOp.clear] else [])
    ++ (if keys.left then [InputOp.left] else [])
    ++ (if keys.right then [InputOp.right] else [])

/-- The loop `while (...) first_visible_char++` of `scroll_repair` unrolled `fuel`
times; with `fuel` the number of characters between the two pointers it computes
`scroll_repair` (see `scroll_repair_eq_unrolled`) by structural recursion. -/
def scroll_repair_unrolled (get_char_width : WidthProvider) (visible_buffer_width : Nat)
    (buffer : List Char) (curr_char_ptr : Nat) : Nat → Nat → Nat
  | 0, first_visible_char => first_visible_char
  | fuel + 1, first_visible_char =>
      if window_width get_char_width buffer curr_char_ptr first_visible_char
          > visible_buffer_width then
        scroll_repair_unrolled get_char_width visible_buffer_width buffer curr_char_ptr
          fuel (first_visible_char + 1)
      else first_visible_char

/-! ## Keymap table (C5) -/

/-- C5, as stated, fails: the table `letters` does not have 64 entries, and the read
`letters[63]` for the offset 63 falls outside it. -/
theorem letters_not_64_entries :
    letters.length ≠ 64 ∧ keymap_at letters 63 = none := by
  decide

/-- C5, amended: `letters` has 57 bytes (the 56 written characters and the
terminator), and the read `letters[offset]` is inside the table exactly for the
offsets 0..56. -/
theorem letters_bounds :
    letters.length = 57 ∧
      ∀ offset : Int, (keymap_at letters offset).isSome ↔ (0 ≤ offset ∧ offset ≤ 56) := by
  refine ⟨by decide, ?_⟩
  intro offset
  have hlen : letters.length = 57 := by decide
  unfold keymap_at
  by_cases h : 0 ≤ offset
  · simp only [h, if_true, true_and]
    rw [List.get?_eq_getElem?, Option.isSome_iff_exists]
    constructor
    · rintro ⟨c, hc⟩
      have := (List.getElem?_eq_some.mp hc).1
      omega
    · intro h56
      have hlt : offset.toNat < letters.length := by omega
      exact ⟨letters[offset.toNat], List.getElem?_eq_getElem hlt⟩
  · simp [h]

/-! ## Keymap cycling (C6) -/

theorem switch_keymaps_iterate (N : Nat) (hN : N ≤ 255) (i : Nat) (hi : i ≤ N) (k : Nat) :
    Nat.iterate switch_keymaps k { curr_keymap_num := i, num_keymaps := N }
      = { curr_keymap_num := (i + k) % (N + 1), num_keymaps := N } := by
  induction k with
  | zero =>
      have : i % (N + 1) = i := Nat.mod_eq_of_lt (by omega)
      simp [this]
  | succ k ih =>
      rw [Function.iterate_succ_apply', ih]
      have hlt : (i + k) % (N + 1) < N + 1 := Nat.mod_lt _ (by omega)
      have hstep : (i + (k + 1)) % (N + 1) = ((i + k) % (N + 1) + 1) % (N + 1) := by
        rw [← Nat.add_assoc]
        exact (Nat.mod_add_mod (i + k) (N + 1) 1).symm
      simp only [switch_keymaps, to_uint8]
      by_cases hj : (i + k) % (N + 1) < N
      · have h1 : (i + k) % (N + 1) % 256 = (i + k) % (N + 1) := Nat.mod_eq_of_lt (by omega)
        have h2 : ((i + k) % (N + 1) + 1) % (N + 1) = (i + k) % (N + 1) + 1 :=
          Nat.mod_eq_of_lt (by omega)
        have h3 : ((i + k) % (N + 1) + 1) % 256 = (i + k) % (N + 1) + 1 :=
          Nat.mod_eq_of_lt (by omega)
        simp [h1, hj, hstep, h2, h3]
      · have hj2 : (i + k) % (N + 1) = N := by omega
        have h1 : N % 256 = N := Nat.mod_eq_of_lt (by omega)
        simp [hj2, h1, hstep]

/-- C6: with `N` the value of `textio_GetNumKeymaps` (an 8-bit count, `N ≤ 255`) and a
current keymap index `i ≤ N`, `N + 1` applications of `switch_keymaps` bring the index
back to `i`; a single application increments an index below `N` without leaving the
8-bit range and resets any other index to 0. -/
theorem switch_keymaps_cycle (N i : Nat) (hN : N ≤ 255) (hi : i ≤ N) :
    Nat.iterate switch_keymaps (N + 1) { curr_keymap_num := i, num_keymaps := N }
        = { curr_keymap_num := i, num_keymaps := N } ∧
      ∀ j, j ≤ 255 →
        switch_keymaps { curr_keymap_num := j, num_keymaps := N }
            = { curr_keymap_num := if j < N then j + 1 else 0, num_keymaps := N } ∧
          (j < N → j + 1 ≤ 255) := by
  constructor
  · rw [switch_keymaps_iterate N hN i hi (N + 1)]
    have : (i + (N + 1)) % (N + 1) = i := by
      rw [Nat.add_mod_right]
      exact Nat.mod_eq_of_lt (by omega)
    rw [this]
  · intro j hj
    refine ⟨?_, by omega⟩
    have h1 : j % 256 = j := Nat.mod_eq_of_lt (by omega)
    simp only [switch_keymaps, to_uint8, h1]
    by_cases hlt : j < N
    · have h3 : (j + 1) % 256 = j + 1 := Nat.mod_eq_of_lt (by omega)
      simp [hlt, h3]
    · simp [hlt]

/-- C6 at the three keymaps of a program-name field (`N = 2`), from index 1. -/
theorem switch_keymaps_cycle_witness :
    Nat.iterate switch_keymaps 3 { curr_keymap_num := 1, num_keymaps := 2 }
        = { curr_keymap_num := 1, num_keymaps := 2 } ∧
      ∀ j, j ≤ 255 →
        switch_keymaps { curr_keymap_num := j, num_keymaps := 2 }
            = { curr_keymap_num := if j < 2 then j + 1 else 0, num_keymaps := 2 } ∧
          (j < 2 → j + 1 ≤ 255) :=
  switch_keymaps_cycle 2 1 (by decide) (by decide)

/-! ## Line alignment (C7) -/

/-- C7: `print_text` positions the line from `curr_line` up to `next_line` at the x
computed from the print format and the measured width `w = textio_GetLineWidth(data,
curr_line, next_line - 1)`; for `uint24_t` arguments that x is `xPos` when the format
is left-margin-flush (1), `max_line_width - xPos - w` modulo `2^24` when it is
right-margin-flush (3) and half that value when it is centered (2); when `xPos + w ≤
max_line_width` nothing wraps and the right-flush line ends `xPos` pixels before
`max_line_width`. -/
theorem print_text_x_spec (max_line_width xPos w : Nat)
    (hm : max_line_width < 16777216) (hx : xPos < 16777216) (hw : w < 16777216) :
    (∀ GetLineWidth output_data text curr_line next_line yPos,
        (printed_line GetLineWidth output_data text xPos max_line_width curr_line next_line
            yPos).x
          = print_text_x output_data.print_format max_line_width xPos
              (GetLineWidth output_data curr_line (next_line - 1))) ∧
      print_text_x TEXTIO_FORMAT_LEFT_MARGIN_FLUSH max_line_width xPos w = xPos ∧
      ((print_text_x TEXTIO_FORMAT_RIGHT_MARGIN_FLUSH max_line_width xPos w : Nat) : Int)
        = ((max_line_width : Int) - xPos - w) % 16777216 ∧
      ((print_text_x TEXTIO_FORMAT_CENTERED max_line_width xPos w : Nat) : Int)
        = (((max_line_width : Int) - xPos - w) % 16777216) / 2 ∧
      (xPos + w ≤ max_line_width →
        print_text_x TEXTIO_FORMAT_RIGHT_MARGIN_FLUSH max_line_width xPos w
            = max_line_width - xPos - w ∧
          print_text_x TEXTIO_FORMAT_RIGHT_MARGIN_FLUSH max_line_width xPos w + w + xPos
            = max_line_width ∧
          print_text_x TEXTIO_FORMAT_CENTERED max_line_width xPos w
            = (max_line_width - xPos - w) / 2) := by
  refine ⟨fun _ _ _ _ _ _ => rfl, ?_⟩
  simp only [print_text_x, TEXTIO_FORMAT_LEFT_MARGIN_FLUSH, TEXTIO_FORMAT_CENTERED,
    TEXTIO_FORMAT_RIGHT_MARGIN_FLUSH, sub_uint24, to_uint24]
  norm_num
  refine ⟨by omega, by omega, by omega, ?_⟩
  intro h
  refine ⟨by omega, by omega, by omega⟩

/-- C7 at the window of the example (140 pixels), a margin of 10 and a line 100 pixels
wide: left-flush at 10, right-flush at 30 (ending at 130), centered at 15. -/
theorem print_text_x_spec_witness :
    ((140 : Nat) < 16777216 ∧ (10 : Nat) < 16777216 ∧ (100 : Nat) < 16777216) ∧
      print_text_x TEXTIO_FORMAT_LEFT_MARGIN_FLUSH 140 10 100 = 10 ∧
      print_text_x TEXTIO_FORMAT_RIGHT_MARGIN_FLUSH 140 10 100 = 30 ∧
      print_text_x TEXTIO_FORMAT_RIGHT_MARGIN_FLUSH 140 10 100 + 100 + 10 = 140 ∧
      print_text_x TEXTIO_FORMAT_CENTERED 140 10 100 = 15 := by
  obtain ⟨_, h1, _, _, h4⟩ :=
    print_text_x_spec 140 10 100 (by decide) (by decide) (by decide)
  obtain ⟨h5, h6, h7⟩ := h4 (by decide)
  exact ⟨⟨by decide, by decide, by decide⟩, h1, h5, h6, h7⟩

/-! ## The scroll-repair loops (C8) -/

theorem textio_GetStringWidthL_lt (get_char_width : WidthProvider) (buffer : List Char)
    (string num_chars : Nat) :
    textio_GetStringWidthL get_char_width buffer string num_chars < 16777216 := by
  cases num_chars with
  | zero => simp [textio_GetStringWidthL]
  | succ n => simp only [textio_GetStringWidthL, to_uint24]; omega

theorem window_width_of_sub_eq_zero (get_char_width : WidthProvider) (buffer : List Char)
    (curr_char_ptr first_visible_char : Nat)
    (h : sub_uint24 curr_char_ptr first_visible_char = 0) :
    window_width get_char_width buffer curr_char_ptr first_visible_char = 0 := by
  simp [window_width, h, textio_GetStringWidthL]

theorem window_width_self (get_char_width : WidthProvider) (buffer : List Char)
    (curr_char_ptr : Nat) :
    window_width get_char_width buffer curr_char_ptr curr_char_ptr = 0 := by
  apply window_width_of_sub_eq_zero
  simp only [sub_uint24]
  omega

theorem sub_uint24_succ_lt (curr_char_ptr first_visible_char : Nat)
    (h : sub_uint24 curr_char_ptr first_visible_char ≠ 0) :
    sub_uint24 curr_char_ptr (first_visible_char + 1)
      < sub_uint24 curr_char_ptr first_visible_char := by
  simp only [sub_uint24] at h ⊢
  omega

theorem scroll_repair_stop (get_char_width : WidthProvider) (visible_buffer_width : Nat)
    (buffer : List Char) (curr_char_ptr first_visible_char : Nat)
    (h : ¬ window_width get_char_width buffer curr_char_ptr first_visible_char
      > visible_buffer_width) :
    scroll_repair get_char_width visible_buffer_width buffer curr_char_ptr
      first_visible_char = first_visible_char := by
  rw [scroll_repair, dif_neg h]

theorem scroll_repair_step (get_char_width : WidthProvider) (visible_buffer_width : Nat)
    (buffer : List Char) (curr_char_ptr first_visible_char : Nat)
    (h : window_width get_char_width buffer curr_char_ptr first_visible_char
      > visible_buffer_width) :
    scroll_repair get_char_width visible_buffer_width buffer curr_char_ptr
      first_visible_char
      = scroll_repair get_char_width visible_buffer_width buffer curr_char_ptr
          (first_visible_char + 1) := by
  rw [scroll_repair, dif_pos h]

/-- The condition of the loop of lines 72-75 is the condition of the loop of lines
102-105: adding and subtracting `INPUT_FIELD_X` modulo `2^24` changes nothing. -/
theorem cursor_condition_eq (get_char_width : WidthProvider) (buffer : List Char)
    (curr_char_ptr first_visible_char : Nat) :
    sub_uint24 (cursor_x_at get_char_width buffer curr_char_ptr first_visible_char)
      INPUT_FIELD_X
      = window_width get_char_width buffer curr_char_ptr first_visible_char := by
  have hlt := textio_GetStringWidthL_lt get_char_width buffer first_visible_char
    (sub_uint24 curr_char_ptr first_visible_char)
  simp only [cursor_x_at, window_width, sub_uint24, to_uint24, INPUT_FIELD_X] at hlt ⊢
  omega

theorem cursor_repair_eq_scroll_repair (get_char_width : WidthProvider)
    (visible_buffer_width : Nat) (buffer : List Char) (curr_char_ptr : Nat) :
    ∀ (n first_visible_char : Nat), sub_uint24 curr_char_ptr first_visible_char = n →
      cursor_repair get_char_width visible_buffer_width buffer curr_char_ptr
        first_visible_char
        = scroll_repair get_char_width visible_buffer_width buffer curr_char_ptr
            first_visible_char := by
  intro n
  induction n using Nat.strong_induction_on with
  | _ n ih =>
    intro fv hn
    rw [cursor_repair, scroll_repair]
    simp only [cursor_condition_eq]
    by_cases hx : window_width get_char_width buffer curr_char_ptr fv > visible_buffer_width
    · rw [dif_pos hx, dif_pos hx]
      have h0 : sub_uint24 curr_char_ptr fv ≠ 0 := by
        intro h0
        rw [window_width_of_sub_eq_zero _ _ _ _ h0] at hx
        omega
      have hlt := sub_uint24_succ_lt curr_char_ptr fv h0
      exact ih _ (by omega) (fv + 1) rfl
    · rw [dif_neg hx, dif_neg hx]

theorem scroll_repair_aux (get_char_width : WidthProvider) (visible_buffer_width : Nat)
    (buffer : List Char) (curr_char_ptr : Nat) :
    ∀ (n first_visible_char : Nat), sub_uint24 curr_char_ptr first_visible_char = n →
      first_visible_char
          ≤ scroll_repair get_char_width visible_buffer_width buffer curr_char_ptr
              first_visible_char ∧
        window_width get_char_width buffer curr_char_ptr
            (scroll_repair get_char_width visible_buffer_width buffer curr_char_ptr
              first_visible_char) ≤ visible_buffer_width ∧
        ∀ p, first_visible_char ≤ p →
          p < scroll_repair get_char_width visible_buffer_width buffer curr_char_ptr
              first_visible_char →
          window_width get_char_width buffer curr_char_ptr p > visible_buffer_width := by
  intro n
  induction n using Nat.strong_induction_on with
  | _ n ih =>
    intro fv hn
    by_cases hx : window_width get_char_width buffer curr_char_ptr fv > visible_buffer_width
    · rw [scroll_repair_step _ _ _ _ _ hx]
      have h0 : sub_uint24 curr_char_ptr fv ≠ 0 := by
        intro h0
        rw [window_width_of_sub_eq_zero _ _ _ _ h0] at hx
        omega
      have hlt := sub_uint24_succ_lt curr_char_ptr fv h0
      obtain ⟨h1, h2, h3⟩ := ih _ (by omega) (fv + 1) rfl
      refine ⟨by omega, h2, ?_⟩
      intro p hp hpr
      by_cases hpe : p = fv
      · subst hpe; exact hx
      · exact h3 p (by omega) hpr
    · rw [scroll_repair_stop _ _ _ _ _ hx]
      refine ⟨le_refl _, by omega, ?_⟩
      intro p hp hpr
      omega

theorem scroll_repair_le (get_char_width : WidthProvider) (visible_buffer_width : Nat)
    (buffer : List Char) (curr_char_ptr first_visible_char : Nat)
    (h : first_visible_char ≤ curr_char_ptr) :
    scroll_repair get_char_width visible_buffer_width buffer curr_char_ptr
      first_visible_char ≤ curr_char_ptr := by
  obtain ⟨_, _, h3⟩ := scroll_repair_aux get_char_width visible_buffer_width buffer
    curr_char_ptr _ first_visible_char rfl
  by_contra hgt
  have := h3 curr_char_ptr h (by omega)
  rw [window_width_self] at this
  omega

/-- C8: started with `first_visible_char ≤ curr_char_ptr`, the scroll-repair loop (in
both its forms, lines 72-75 and lines 102-105) stops after at most `curr_char_ptr -
first_visible_char` increments, with `first_visible_char ≤ curr_char_ptr` and a
measured window width of at most `visible_buffer_width`, at the smallest position at
or after the entry value where that bound holds. -/
theorem scroll_repair_spec (get_char_width : WidthProvider) (visible_buffer_width : Nat)
    (buffer : List Char) (curr_char_ptr first_visible_char : Nat)
    (h : first_visible_char ≤ curr_char_ptr) :
    cursor_repair get_char_width visible_buffer_width buffer curr_char_ptr
        first_visible_char
        = scroll_repair get_char_width visible_buffer_width buffer curr_char_ptr
            first_visible_char ∧
      first_visible_char
        ≤ scroll_repair get_char_width visible_buffer_width buffer curr_char_ptr
            first_visible_char ∧
      scroll_repair get_char_width visible_buffer_width buffer curr_char_ptr
          first_visible_char - first_visible_char
        ≤ curr_char_ptr - first_visible_char ∧
      scroll_repair get_char_width visible_buffer_width buffer curr_char_ptr
          first_visible_char ≤ curr_char_ptr ∧
      window_width get_char_width buffer curr_char_ptr
          (scroll_repair get_char_width visible_buffer_width buffer curr_char_ptr
            first_visible_char) ≤ visible_buffer_width ∧
      ∀ p, first_visible_char ≤ p →
        window_width get_char_width buffer curr_char_ptr p ≤ visible_buffer_width →
        scroll_repair get_char_width visible_buffer_width buffer curr_char_ptr
          first_visible_char ≤ p := by
  obtain ⟨h1, h2, h3⟩ := scroll_repair_aux get_char_width visible_buffer_width buffer
    curr_char_ptr _ first_visible_char rfl
  have h4 := scroll_repair_le get_char_width visible_buffer_width buffer curr_char_ptr
    first_visible_char h
  refine ⟨cursor_repair_eq_scroll_repair _ _ _ _ _ _ rfl, h1, by omega, h4, h2, ?_⟩
  intro p hp hw
  by_contra hgt
  have := h3 p hp (by omega)
  omega

/-- C8 at the buffer `WW` with the proportional sample font and a window of 50
pixels: started at `buffer` with the cursor after both characters (60 pixels), the
loop stops after one increment (30 pixels). -/
theorem scroll_repair_spec_witness :
    (0 : Nat) ≤ 2 ∧
      scroll_repair sample_width 50 ['W', 'W'] 2 0 = 1 ∧
      cursor_repair sample_width 50 ['W', 'W'] 2 0 = 1 := by
  obtain ⟨h0, _, _, _, h4, h5⟩ :=
    scroll_repair_spec sample_width 50 ['W', 'W'] 2 0 (by decide)
  have hle : scroll_repair sample_width 50 ['W', 'W'] 2 0 ≤ 1 :=
    h5 1 (by decide) (by decide)
  have hne : scroll_repair sample_width 50 ['W', 'W'] 2 0 ≠ 0 := by
    intro h
    rw [h] at h4
    revert h4
    decide
  rw [h0]
  omega

/-! ## Invariants of the input field (C1, C2, C10) -/

theorem char_at_ne_NUL_lt (buffer : List Char) (i : Nat) (h : char_at buffer i ≠ NUL) :
    i < buffer.length := by
  by_contra hge
  apply h
  simp only [char_at]
  exact List.getD_eq_default _ _ (by omega)

theorem window_width_last (get_char_width : WidthProvider) (buffer : List Char)
    (curr_char_ptr : Nat) (h : 0 < curr_char_ptr) :
    window_width get_char_width buffer curr_char_ptr (curr_char_ptr - 1)
      = to_uint24 (get_char_width (char_at buffer (curr_char_ptr - 1))) := by
  have h1 : sub_uint24 curr_char_ptr (curr_char_ptr - 1) = 1 := by
    simp only [sub_uint24]
    omega
  simp [window_width, h1, textio_GetStringWidthL]

/-- When every glyph fits in the window, the repair loop leaves a non-empty window
non-empty. -/
theorem scroll_repair_lt (get_char_width : WidthProvider) (visible_buffer_width : Nat)
    (hw : ∀ c, get_char_width c ≤ visible_buffer_width)
    (buffer : List Char) (curr_char_ptr first_visible_char : Nat)
    (h : first_visible_char < curr_char_ptr) :
    scroll_repair get_char_width visible_buffer_width buffer curr_char_ptr
      first_visible_char < curr_char_ptr := by
  obtain ⟨_, _, h3⟩ := scroll_repair_aux get_char_width visible_buffer_width buffer
    curr_char_ptr _ first_visible_char rfl
  have hle := scroll_repair_le get_char_width visible_buffer_width buffer curr_char_ptr
    first_visible_char (by omega)
  have hlast : window_width get_char_width buffer curr_char_ptr (curr_char_ptr - 1)
      ≤ visible_buffer_width := by
    rw [window_width_last _ _ _ (by omega)]
    have := hw (char_at buffer (curr_char_ptr - 1))
    simp only [to_uint24]
    omega
  by_contra hge
  have := h3 (curr_char_ptr - 1) (by omega) (by omega)
  omega

theorem field_invariant_initial (buffer_size : Nat) :
    field_invariant buffer_size initial_state := by
  simp [field_invariant, initial_state]

theorem field_invariant_top_repair (get_char_width : WidthProvider)
    (buffer_size visible_buffer_width : Nat)
    (hw : ∀ c, 2 * get_char_width c ≤ visible_buffer_width) (s : InputState)
    (h : field_invariant buffer_size s) :
    field_invariant buffer_size (top_repair get_char_width visible_buffer_width s) := by
  obtain ⟨h1, h2, h3, h4, h5⟩ := h
  have e := cursor_repair_eq_scroll_repair get_char_width visible_buffer_width s.buffer
    s.curr_char_ptr _ s.first_visible_char rfl
  have g3 := scroll_repair_le get_char_width visible_buffer_width s.buffer
    s.curr_char_ptr s.first_visible_char h1
  simp only [field_invariant, top_repair, e]
  refine ⟨g3, h2, h3, h4, ?_⟩
  intro heq
  by_contra hne
  have hlt : s.first_visible_char < s.curr_char_ptr := by
    rcases Nat.lt_or_ge s.first_visible_char s.curr_char_ptr with hlt | hge
    · exact hlt
    · exact absurd (h5 (by omega)) hne
  have := scroll_repair_lt get_char_width visible_buffer_width
    (fun c => by have := hw c; omega) s.buffer s.curr_char_ptr s.first_visible_char hlt
  omega

theorem field_invariant_insert_character (get_char_width : WidthProvider)
    (buffer_size visible_buffer_width : Nat)
    (hw : ∀ c, 2 * get_char_width c ≤ visible_buffer_width) (character : Char)
    (s : InputState) (h : field_invariant buffer_size s) :
    field_invariant buffer_size
      (insert_character get_char_width buffer_size visible_buffer_width character s) := by
  obtain ⟨h1, h2, h3, h4, h5⟩ := h
  unfold insert_character
  by_cases hc : character = NUL
  · simp only [hc, ne_eq, not_true_eq_false, if_false]
    exact ⟨h1, h2, h3, h4, h5⟩
  · by_cases hfull : s.buffer.length + 1 > buffer_size
    · simp only [ne_eq, hc, not_false_eq_true, if_true, textio_InsertChar, hfull,
        Bool.not_true, Bool.false_eq_true, if_false]
      exact ⟨h1, h2, h3, h4, h5⟩
    · simp only [ne_eq, hc, not_false_eq_true, if_true, textio_InsertChar, hfull,
        if_false, Bool.not_false, field_invariant]
      have hlt := scroll_repair_lt get_char_width visible_buffer_width
        (fun c => by have := hw c; omega)
        (List.take s.curr_char_ptr s.buffer ++ character :: List.drop s.curr_char_ptr s.buffer)
        (s.curr_char_ptr + 1) s.first_visible_char (by omega)
      refine ⟨by omega, ?_, ?_, ?_, by omega⟩
      · simp only [List.length_append, List.length_take, List.length_cons, List.length_drop]
        omega
      · simp only [List.length_append, List.length_take, List.length_cons, List.length_drop]
        omega
      · intro c hcmem
        simp only [List.mem_append, List.mem_cons] at hcmem
        rcases hcmem with hm | hm | hm
        · exact h4 c (List.mem_of_mem_take hm)
        · rw [hm]; exact hc
        · exact h4 c (List.mem_of_mem_drop hm)

theorem field_invariant_del_key (get_char_width : WidthProvider) (buffer_size : Nat)
    (s : InputState) (h : field_invariant buffer_size s) :
    field_invariant buffer_size (del_key get_char_width buffer_size s) := by
  obtain ⟨h1, h2, h3, h4, h5⟩ := h
  unfold del_key
  by_cases hc : s.curr_char_ptr > 0
  · have hlt : s.curr_char_ptr - 1 < s.buffer.length := by omega
    simp only [hc, if_true, textio_ShiftDeleteChar, hlt, field_invariant]
    refine ⟨?_, ?_, ?_, ?_, ?_⟩
    · split <;> omega
    · rw [List.length_eraseIdx]; simp only [hlt, if_true]; omega
    · rw [List.length_eraseIdx]; simp only [hlt, if_true]; omega
    · intro c hcmem
      exact h4 c (List.mem_of_mem_eraseIdx hcmem)
    · split <;> omega
  · simp only [hc, if_false]
    exact ⟨h1, h2, h3, h4, h5⟩

theorem field_invariant_clear_key (buffer_size : Nat) (s : InputState)
    (h : field_invariant buffer_size s) :
    field_invariant buffer_size (clear_key buffer_size s) := by
  obtain ⟨h1, h2, h3, h4, h5⟩ := h
  simp only [clear_key, textio_DeleteString, field_invariant]
  by_cases hz : buffer_size = 0
  · simp only [hz, if_true]
    exact ⟨le_refl _, Nat.zero_le _, by omega, h4, fun _ => trivial⟩
  · simp [hz]

theorem field_invariant_left_key (buffer_size : Nat) (s : InputState)
    (h : field_invariant buffer_size s) :
    field_invariant buffer_size (left_key s) := by
  obtain ⟨h1, h2, h3, h4, h5⟩ := h
  unfold left_key
  by_cases hc : s.curr_char_ptr > 0
  · simp only [hc, if_true, field_invariant]
    refine ⟨?_, by omega, h3, h4, ?_⟩
    · split <;> omega
    · split <;> omega
  · simp only [hc, if_false]
    exact ⟨h1, h2, h3, h4, h5⟩

theorem textio_GetStringWidthL_two_le (get_char_width : WidthProvider) (buffer : List Char)
    (string : Nat) :
    textio_GetStringWidthL get_char_width buffer string 2
      ≤ get_char_width (char_at buffer string) + get_char_width (char_at buffer (string + 1)) := by
  simp only [textio_GetStringWidthL, to_uint24]
  omega

theorem field_invariant_right_key (get_char_width : WidthProvider)
    (buffer_size visible_buffer_width : Nat)
    (hw : ∀ c, 2 * get_char_width c ≤ visible_buffer_width) (s : InputState)
    (h : field_invariant buffer_size s) :
    field_invariant buffer_size (right_key get_char_width visible_buffer_width s) := by
  obtain ⟨h1, h2, h3, h4, h5⟩ := h
  unfold right_key
  by_cases hc : char_at s.buffer s.curr_char_ptr ≠ NUL
  · have hlt := char_at_ne_NUL_lt _ _ hc
    rw [if_pos hc]
    simp only [field_invariant]
    refine ⟨?_, by omega, h3, h4, ?_⟩
    · split <;> omega
    · split
      · rename_i hyes
        intro heq
        exfalso
        have hcur : s.curr_char_ptr = 0 := h5 (by omega)
        have hfv : s.first_visible_char = 0 := by omega
        rw [hfv, hcur] at hyes
        have h2c : to_uint24 (sub_uint24 (0 + 1) 0 + 1) = 2 := by decide
        rw [h2c] at hyes
        have := textio_GetStringWidthL_two_le get_char_width s.buffer 0
        have ha := hw (char_at s.buffer 0)
        have hb := hw (char_at s.buffer (0 + 1))
        omega
      · omega
  · rw [if_neg hc]
    exact ⟨h1, h2, h3, h4, h5⟩

/-! ## Runs of the loop -/

theorem scroll_repair_eq_unrolled (get_char_width : WidthProvider)
    (visible_buffer_width : Nat) (buffer : List Char) (curr_char_ptr : Nat) :
    ∀ (fuel first_visible_char : Nat), sub_uint24 curr_char_ptr first_visible_char = fuel →
      scroll_repair get_char_width visible_buffer_width buffer curr_char_ptr
        first_visible_char
        = scroll_repair_unrolled get_char_width visible_buffer_width buffer curr_char_ptr
            fuel first_visible_char := by
  intro fuel
  induction fuel with
  | zero =>
      intro fv h
      rw [scroll_repair_stop]
      · rfl
      · rw [window_width_of_sub_eq_zero _ _ _ _ h]
        omega
  | succ n ih =>
      intro fv h
      by_cases hx : window_width get_char_width buffer curr_char_ptr fv > visible_buffer_width
      · rw [scroll_repair_step _ _ _ _ _ hx]
        simp only [scroll_repair_unrolled, hx, if_true]
        apply ih
        have := sub_uint24_succ_lt curr_char_ptr fv (by omega)
        simp only [sub_uint24] at h this ⊢
        omega
      · rw [scroll_repair_stop _ _ _ _ _ hx]
        simp only [scroll_repair_unrolled, hx, if_false]

/-- Evaluation of the loop of lines 102-105 by structural recursion. -/
theorem scroll_repair_eval (get_char_width : WidthProvider)
    (visible_buffer_width : Nat) (buffer : List Char)
    (curr_char_ptr first_visible_char : Nat) :
    scroll_repair get_char_width visible_buffer_width buffer curr_char_ptr
      first_visible_char
      = scroll_repair_unrolled get_char_width visible_buffer_width buffer curr_char_ptr
          (sub_uint24 curr_char_ptr first_visible_char) first_visible_char :=
  scroll_repair_eq_unrolled _ _ _ _ _ _ rfl

/-- Evaluation of the loop of lines 72-75 by structural recursion. -/
theorem cursor_repair_eval (get_char_width : WidthProvider)
    (visible_buffer_width : Nat) (buffer : List Char)
    (curr_char_ptr first_visible_char : Nat) :
    cursor_repair get_char_width visible_buffer_width buffer curr_char_ptr
      first_visible_char
      = scroll_repair_unrolled get_char_width visible_buffer_width buffer curr_char_ptr
          (sub_uint24 curr_char_ptr first_visible_char) first_visible_char := by
  rw [cursor_repair_eq_scroll_repair _ _ _ _ _ _ rfl, scroll_repair_eval]

theorem run_ops_nil (get_char_width : WidthProvider) (buffer_size visible_buffer_width : Nat)
    (s : InputState) :
    run_ops get_char_width buffer_size visible_buffer_width [] s = s := rfl

theorem run_ops_cons (get_char_width : WidthProvider)
    (buffer_size visible_buffer_width : Nat) (op : InputOp) (ops : List InputOp)
    (s : InputState) :
    run_ops get_char_width buffer_size visible_buffer_width (op :: ops) s
      = run_ops get_char_width buffer_size visible_buffer_width ops
          (apply_op get_char_width buffer_size visible_buffer_width op s) := rfl

theorem run_ops_append (get_char_width : WidthProvider)
    (buffer_size visible_buffer_width : Nat) (ops1 ops2 : List InputOp) (s : InputState) :
    run_ops get_char_width buffer_size visible_buffer_width (ops1 ++ ops2) s
      = run_ops get_char_width buffer_size visible_buffer_width ops2
          (run_ops get_char_width buffer_size visible_buffer_width ops1 s) := by
  simp [run_ops, List.foldl_append]

/-- An iteration of the loop is the sequence `iteration_ops` of operations. -/
theorem input_iteration_eq_run_ops (get_char_width : WidthProvider)
    (buffer_size visible_buffer_width : Nat) (keys : Keys) (s s1 : InputState)
    (h : input_iteration get_char_width buffer_size visible_buffer_width keys s = some s1) :
    ∃ character,
      s1 = run_ops get_char_width buffer_size visible_buffer_width
        (iteration_ops keys character) s := by
  obtain ⟨offset, enter, del, clear, left, right⟩ := keys
  simp only [input_iteration] at h
  cases enter
  · by_cases hoff : offset > -1
    · simp only [Bool.not_false, if_true, char_key, hoff] at h
      cases hk : keymap_at letters offset with
      | none => simp [hk] at h
      | some character =>
          refine ⟨character, ?_⟩
          simp only [hk, Option.map_some', Option.some.injEq] at h
          rw [← h]
          cases del <;> cases clear <;> cases left <;> cases right <;>
            simp [iteration_ops, hoff, run_ops, apply_op]
    · refine ⟨NUL, ?_⟩
      simp only [Bool.not_false, if_true, char_key, hoff, if_false, Option.map_some',
        Option.some.injEq] at h
      rw [← h]
      cases del <;> cases clear <;> cases left <;> cases right <;>
        simp [iteration_ops, hoff, run_ops, apply_op]
  · refine ⟨NUL, ?_⟩
    simp only [Bool.not_true, Bool.false_eq_true, if_false, Option.map_some',
      Option.some.injEq] at h
    rw [← h]
    cases del <;> cases clear <;> cases left <;> cases right <;>
      simp [iteration_ops, run_ops, apply_op]

/-- Every state the loop reaches is reached by a sequence of operations. -/
theorem input_loop_eq_run_ops (get_char_width : WidthProvider)
    (buffer_size visible_buffer_width : Nat) (scans : List Keys) :
    ∀ (s s1 : InputState),
      input_loop get_char_width buffer_size visible_buffer_width scans s = some s1 →
      ∃ ops, s1 = run_ops get_char_width buffer_size visible_buffer_width ops s := by
  induction scans with
  | nil =>
      intro s s1 h
      simp only [input_loop, Option.some.injEq] at h
      exact ⟨[], by rw [← h]; rfl⟩
  | cons keys rest ih =>
      intro s s1 h
      simp only [input_loop] at h
      cases hi : input_iteration get_char_width buffer_size visible_buffer_width keys s with
      | none => simp [hi] at h
      | some s2 =>
          obtain ⟨character, hc⟩ := input_iteration_eq_run_ops _ _ _ _ _ _ hi
          simp only [hi] at h
          by_cases he : keys.enter = true
          · simp only [he, if_true, Option.some.injEq] at h
            exact ⟨iteration_ops keys character, by rw [← h, hc]⟩
          · simp only [he, if_false] at h
            obtain ⟨ops, hops⟩ := ih s2 s1 h
            refine ⟨iteration_ops keys character ++ ops, ?_⟩
            rw [run_ops_append, ← hc, hops]

theorem field_invariant_apply_op (get_char_width : WidthProvider)
    (buffer_size visible_buffer_width : Nat)
    (hw : ∀ c, 2 * get_char_width c ≤ visible_buffer_width) (op : InputOp)
    (s : InputState) (h : field_invariant buffer_size s) :
    field_invariant buffer_size
      (apply_op get_char_width buffer_size visible_buffer_width op s) := by
  cases op with
  | repair => exact field_invariant_top_repair _ _ _ hw s h
  | insert character => exact field_invariant_insert_character _ _ _ hw character s h
  | delete => exact field_invariant_del_key _ _ s h
  | clear => exact field_invariant_clear_key _ s h
  | left => exact field_invariant_left_key _ s h
  | right => exact field_invariant_right_key _ _ _ hw s h

theorem field_invariant_run_ops (get_char_width : WidthProvider)
    (buffer_size visible_buffer_width : Nat)
    (hw : ∀ c, 2 * get_char_width c ≤ visible_buffer_width) (ops : List InputOp) :
    ∀ s, field_invariant buffer_size s →
      field_invariant buffer_size
        (run_ops get_char_width buffer_size visible_buffer_width ops s) := by
  induction ops with
  | nil => intro s h; exact h
  | cons op ops ih =>
      intro s h
      rw [run_ops_cons]
      exact ih _ (field_invariant_apply_op _ _ _ hw op s h)

/-! ## The scroll-window width (C1) -/

theorem window_fits_top_repair (get_char_width : WidthProvider)
    (visible_buffer_width : Nat) (s : InputState) :
    window_fits get_char_width visible_buffer_width
      (top_repair get_char_width visible_buffer_width s) := by
  simp only [window_fits, top_repair, cursor_repair_eq_scroll_repair _ _ _ _ _ _ rfl]
  exact (scroll_repair_aux get_char_width visible_buffer_width s.buffer s.curr_char_ptr _
    s.first_visible_char rfl).2.1

theorem window_fits_insert_character (get_char_width : WidthProvider)
    (buffer_size visible_buffer_width : Nat) (character : Char) (s : InputState)
    (h : window_fits get_char_width visible_buffer_width s) :
    window_fits get_char_width visible_buffer_width
      (insert_character get_char_width buffer_size visible_buffer_width character s) := by
  unfold insert_character
  by_cases hc : character = NUL
  · simp only [hc, ne_eq, not_true_eq_false, if_false]
    exact h
  · by_cases hfull : s.buffer.length + 1 > buffer_size
    · simp only [ne_eq, hc, not_false_eq_true, if_true, textio_InsertChar, hfull,
        Bool.not_true, Bool.false_eq_true, if_false]
      exact h
    · simp only [ne_eq, hc, not_false_eq_true, if_true, textio_InsertChar, hfull,
        if_false, Bool.not_false, window_fits]
      exact (scroll_repair_aux get_char_width visible_buffer_width _ (s.curr_char_ptr + 1) _
        s.first_visible_char rfl).2.1

theorem window_fits_clear_key (get_char_width : WidthProvider)
    (buffer_size visible_buffer_width : Nat) (s : InputState) :
    window_fits get_char_width visible_buffer_width (clear_key buffer_size s) := by
  simp only [window_fits, clear_key, window_width_self]
  omega

/-- Appending one character to a measured span adds its width, modulo `2^24`. -/
theorem textio_GetStringWidthL_succ (get_char_width : WidthProvider) (buffer : List Char) :
    ∀ (num_chars string : Nat),
      textio_GetStringWidthL get_char_width buffer string (num_chars + 1)
        = to_uint24 (textio_GetStringWidthL get_char_width buffer string num_chars
            + get_char_width (char_at buffer (string + num_chars))) := by
  intro n
  induction n with
  | zero =>
      intro p
      simp [textio_GetStringWidthL]
  | succ n ih =>
      intro p
      have hidx : p + 1 + n = p + (n + 1) := by omega
      rw [textio_GetStringWidthL, ih (p + 1), hidx]
      conv_rhs => rw [textio_GetStringWidthL]
      simp only [to_uint24]
      omega

/-- A span of `num_chars` glyphs, each at most `bound` wide, measures at most
`num_chars * bound`. -/
theorem textio_GetStringWidthL_le_mul (get_char_width : WidthProvider) (buffer : List Char)
    (bound : Nat) (hb : ∀ c, get_char_width c ≤ bound) :
    ∀ (num_chars string : Nat),
      textio_GetStringWidthL get_char_width buffer string num_chars ≤ num_chars * bound := by
  intro n
  induction n with
  | zero => intro p; simp [textio_GetStringWidthL]
  | succ n ih =>
      intro p
      have h1 := ih (p + 1)
      have h2 := hb (char_at buffer p)
      have h3 : (n + 1) * bound = n * bound + bound := Nat.succ_mul n bound
      simp only [textio_GetStringWidthL, to_uint24]
      omega

/-- Where the widths cannot wrap, a span measures at least as much as the span one
character shorter. -/
theorem textio_GetStringWidthL_mono (get_char_width : WidthProvider) (buffer : List Char)
    (bound : Nat) (hb : ∀ c, get_char_width c ≤ bound) (num_chars string : Nat)
    (hwrap : (num_chars + 1) * bound < 16777216) :
    textio_GetStringWidthL get_char_width buffer string num_chars
      ≤ textio_GetStringWidthL get_char_width buffer string (num_chars + 1) := by
  have h1 := textio_GetStringWidthL_le_mul get_char_width buffer bound hb num_chars string
  have h2 := hb (char_at buffer (string + num_chars))
  have h3 : (num_chars + 1) * bound = num_chars * bound + bound := Nat.succ_mul num_chars bound
  rw [textio_GetStringWidthL_succ]
  simp only [to_uint24]
  omega

/-- In a field that satisfies `field_invariant`, with two glyphs fitting in the window
and no 24-bit wrap, the left-arrow step keeps the scroll-window bound. -/
theorem window_fits_left_key (get_char_width : WidthProvider)
    (buffer_size visible_buffer_width : Nat)
    (hw : ∀ c, 2 * get_char_width c ≤ visible_buffer_width)
    (h24 : (buffer_size + 1) * (visible_buffer_width + 1) < 16777216)
    (s : InputState) (hinv : field_invariant buffer_size s)
    (h : window_fits get_char_width visible_buffer_width s) :
    window_fits get_char_width visible_buffer_width (left_key s) := by
  obtain ⟨h1, h2, h3, _, h5⟩ := hinv
  have hb : ∀ c, get_char_width c ≤ visible_buffer_width := fun c => by
    have := hw c
    omega
  have hsize : buffer_size + 1 < 16777216 := by
    have : (buffer_size + 1) * 1 ≤ (buffer_size + 1) * (visible_buffer_width + 1) :=
      Nat.mul_le_mul (le_refl _) (by omega)
    omega
  unfold left_key
  by_cases hc : s.curr_char_ptr > 0
  · rw [if_pos hc]
    by_cases hadj : s.curr_char_ptr = s.first_visible_char + 1 ∧ s.first_visible_char > 0
    · simp only [hadj, and_self, if_true, window_fits]
      have hlast := window_width_last get_char_width s.buffer
        (s.first_visible_char + 1 - 1) (by omega)
      have hfv : s.first_visible_char + 1 - 1 - 1 = s.first_visible_char - 1 := by omega
      rw [hfv] at hlast
      rw [hlast]
      have := hb (char_at s.buffer (s.first_visible_char - 1))
      simp only [to_uint24]
      omega
    · simp only [hadj, if_false, window_fits]
      have hlt : s.first_visible_char < s.curr_char_ptr := by
        rcases Nat.lt_or_ge s.first_visible_char s.curr_char_ptr with hlt | hge
        · exact hlt
        · have := h5 (by omega)
          omega
      have hn1 : sub_uint24 (s.curr_char_ptr - 1) s.first_visible_char
          = s.curr_char_ptr - 1 - s.first_visible_char := by
        simp only [sub_uint24]
        omega
      have hn2 : sub_uint24 s.curr_char_ptr s.first_visible_char
          = s.curr_char_ptr - 1 - s.first_visible_char + 1 := by
        simp only [sub_uint24]
        omega
      have hmul : (s.curr_char_ptr - 1 - s.first_visible_char + 1) * visible_buffer_width
          ≤ (buffer_size + 1) * (visible_buffer_width + 1) :=
        Nat.mul_le_mul (by omega) (by omega)
      have hmono := textio_GetStringWidthL_mono get_char_width s.buffer visible_buffer_width
        hb (s.curr_char_ptr - 1 - s.first_visible_char) s.first_visible_char (by omega)
      simp only [window_fits, window_width, hn2] at h
      simp only [window_width, hn1]
      omega
  · rw [if_neg hc]
    exact h

/-- C1, as stated, fails.  With a proportional font (`W` 30 pixels wide, other glyphs
10) and the window of the example (50 pixels), typing `W`, `W`, `I` and then pressing
`del` leaves `first_visible_char` at `buffer` and the cursor after `WW`, a measured
width of 60 pixels; typing `I`, `W`, left, `W` and then pressing right leaves the
window on `WW` as well.  In a window of 60 pixels, where two glyphs always fit, `del`
after `W`, `W`, `W`, `I`, `I` and right after `I`, `I`, `W`, left, `W` each leave a
window of 70 pixels.  In the 50-pixel window, `W`, `W`, left, left, right, left leaves
the cursor below `first_visible_char`, so that the measured span has `2^24 - 1`
characters and is not a span of the buffer. -/
theorem window_exceeded_after_delete :
    input_loop sample_width 9 50 [key_scan 11, key_scan 11, key_scan 45, del_scan]
        initial_state
      = some { buffer := ['W', 'W'], curr_char_ptr := 2, first_visible_char := 0 } ∧
    run_ops sample_width 9 50
        [InputOp.repair, InputOp.insert 'W', InputOp.repair, InputOp.insert 'W',
          InputOp.repair, InputOp.insert 'I', InputOp.repair, InputOp.delete] initial_state
      = { buffer := ['W', 'W'], curr_char_ptr := 2, first_visible_char := 0 } ∧
    window_width sample_width ['W', 'W'] 2 0 = 60 ∧
    ¬ window_fits sample_width 50
        { buffer := ['W', 'W'], curr_char_ptr := 2, first_visible_char := 0 } ∧
    input_loop sample_width 9 50
        [key_scan 45, key_scan 11, left_scan, key_scan 11, right_scan] initial_state
      = some { buffer := ['I', 'W', 'W'], curr_char_ptr := 3, first_visible_char := 1 } ∧
    ¬ window_fits sample_width 50
        { buffer := ['I', 'W', 'W'], curr_char_ptr := 3, first_visible_char := 1 } ∧
    input_loop sample_width 9 60
        [key_scan 11, key_scan 11, key_scan 11, key_scan 45, key_scan 45, del_scan]
        initial_state
      = some
          { buffer := ['W', 'W', 'W', 'I'], curr_char_ptr := 4, first_visible_char := 1 } ∧
    window_width sample_width ['W', 'W', 'W', 'I'] 4 1 = 70 ∧
    input_loop sample_width 9 60
        [key_scan 45, key_scan 45, key_scan 11, left_scan, key_scan 11, right_scan]
        initial_state
      = some
          { buffer := ['I', 'I', 'W', 'W'], curr_char_ptr := 4, first_visible_char := 1 } ∧
    window_width sample_width ['I', 'I', 'W', 'W'] 4 1 = 70 ∧
    input_loop sample_width 9 50
        [key_scan 11, key_scan 11, left_scan, left_scan, right_scan, left_scan]
        initial_state
      = some { buffer := ['W', 'W'], curr_char_ptr := 0, first_visible_char := 1 } ∧
    sub_uint24 0 1 = 16777215 := by
  refine ⟨?_, ?_, by decide, by decide, ?_, by decide, ?_, by decide, ?_, by decide, ?_,
    by decide⟩
  · simp only [input_loop, input_iteration, top_repair, char_key, insert_character,
      cursor_repair_eval, scroll_repair_eval]
    decide
  · simp only [run_ops, List.foldl, apply_op, top_repair, insert_character,
      cursor_repair_eval, scroll_repair_eval]
    decide
  · simp only [input_loop, input_iteration, top_repair, char_key, insert_character,
      cursor_repair_eval, scroll_repair_eval]
    decide
  · simp only [input_loop, input_iteration, top_repair, char_key, insert_character,
      cursor_repair_eval, scroll_repair_eval]
    decide
  · simp only [input_loop, input_iteration, top_repair, char_key, insert_character,
      cursor_repair_eval, scroll_repair_eval]
    decide
  · simp only [input_loop, input_iteration, top_repair, char_key, insert_character,
      cursor_repair_eval, scroll_repair_eval]
    decide

/-- Operations other than delete and right-arrow keep the scroll-window bound, in a
field that satisfies `field_invariant`. -/
theorem window_fits_run_ops (get_char_width : WidthProvider)
    (buffer_size visible_buffer_width : Nat)
    (hw : ∀ c, 2 * get_char_width c ≤ visible_buffer_width)
    (h24 : (buffer_size + 1) * (visible_buffer_width + 1) < 16777216)
    (ops : List InputOp) :
    (∀ op ∈ ops, op ≠ InputOp.delete ∧ op ≠ InputOp.right) →
    ∀ s, field_invariant buffer_size s →
      window_fits get_char_width visible_buffer_width s →
      window_fits get_char_width visible_buffer_width
        (run_ops get_char_width buffer_size visible_buffer_width ops s) := by
  induction ops with
  | nil => intro _ s _ h; exact h
  | cons op ops ih =>
      intro hops s hinv h
      rw [run_ops_cons]
      have hop := hops op (List.mem_cons_self _ _)
      refine ih (fun o ho => hops o (List.mem_cons_of_mem _ ho)) _
        (field_invariant_apply_op _ _ _ hw op s hinv) ?_
      cases op with
      | repair => exact window_fits_top_repair _ _ s
      | insert character => exact window_fits_insert_character _ _ _ character s h
      | delete => exact absurd rfl hop.1
      | clear => exact window_fits_clear_key _ _ _ s
      | left => exact window_fits_left_key _ _ _ hw h24 s hinv h
      | right => exact absurd rfl hop.2

/-- C1, amended: for every width provider and `visible_buffer_width` in which two
glyphs always fit (`2 * get_char_width c ≤ visible_buffer_width`) and the widths of a
full buffer cannot wrap in 24 bits (`(buffer_size + 1) * (visible_buffer_width + 1) <
2^24`), and every sequence of operations from the initial empty field, the measured
span lies inside the buffer (its character count is `curr_char_ptr -
first_visible_char`, unwrapped), and the measured width from `first_visible_char` up to
`curr_char_ptr` does not exceed `visible_buffer_width` after each scroll repair, clear,
character insert and left-arrow, as long as no delete or right-arrow has been applied
since the last scroll repair or clear (or since the start).  In every state the loop
reaches, the bound holds once lines 72-75 of the next iteration have run, and still
after the character-key step that follows them. -/
theorem scroll_window_invariant (get_char_width : WidthProvider)
    (buffer_size visible_buffer_width : Nat)
    (hw : ∀ c, 2 * get_char_width c ≤ visible_buffer_width)
    (h24 : (buffer_size + 1) * (visible_buffer_width + 1) < 16777216) :
    (∀ pre post, (∀ op ∈ post, op ≠ InputOp.delete ∧ op ≠ InputOp.right) →
        window_fits get_char_width visible_buffer_width
            (run_ops get_char_width buffer_size visible_buffer_width post initial_state) ∧
          window_fits get_char_width visible_buffer_width
            (run_ops get_char_width buffer_size visible_buffer_width
              (pre ++ InputOp.repair :: post) initial_state) ∧
          window_fits get_char_width visible_buffer_width
            (run_ops get_char_width buffer_size visible_buffer_width
              (pre ++ InputOp.clear :: post) initial_state)) ∧
      (∀ ops s,
        run_ops get_char_width buffer_size visible_buffer_width ops initial_state = s →
        s.first_visible_char ≤ s.curr_char_ptr ∧ s.curr_char_ptr ≤ s.buffer.length ∧
          s.buffer.length ≤ buffer_size ∧
          sub_uint24 s.curr_char_ptr s.first_visible_char
            = s.curr_char_ptr - s.first_visible_char) ∧
      (∀ scans s,
        input_loop get_char_width buffer_size visible_buffer_width scans initial_state
          = some s →
        s.first_visible_char
            ≤ (top_repair get_char_width visible_buffer_width s).first_visible_char ∧
          (top_repair get_char_width visible_buffer_width s).first_visible_char
            ≤ s.curr_char_ptr ∧
          s.curr_char_ptr ≤ s.buffer.length ∧
          s.buffer.length ≤ buffer_size ∧
          window_fits get_char_width visible_buffer_width
            (top_repair get_char_width visible_buffer_width s) ∧
          ∀ character,
            window_fits get_char_width visible_buffer_width
              (insert_character get_char_width buffer_size visible_buffer_width character
                (top_repair get_char_width visible_buffer_width s))) := by
  have hsize : buffer_size + 1 < 16777216 := by
    have : (buffer_size + 1) * 1 ≤ (buffer_size + 1) * (visible_buffer_width + 1) :=
      Nat.mul_le_mul (le_refl _) (by omega)
    omega
  have hinit : window_fits get_char_width visible_buffer_width initial_state := by
    simp only [window_fits, initial_state, window_width_self]
    omega
  have hreach : ∀ ops, field_invariant buffer_size
      (run_ops get_char_width buffer_size visible_buffer_width ops initial_state) :=
    fun ops => field_invariant_run_ops _ _ _ hw ops _ (field_invariant_initial buffer_size)
  refine ⟨?_, ?_, ?_⟩
  · intro pre post hpost
    refine ⟨?_, ?_, ?_⟩
    · exact window_fits_run_ops _ _ _ hw h24 post hpost _
        (field_invariant_initial buffer_size) hinit
    · rw [run_ops_append, run_ops_cons]
      exact window_fits_run_ops _ _ _ hw h24 post hpost _
        (field_invariant_apply_op _ _ _ hw InputOp.repair _ (hreach pre))
        (window_fits_top_repair _ _ _)
    · rw [run_ops_append, run_ops_cons]
      exact window_fits_run_ops _ _ _ hw h24 post hpost _
        (field_invariant_apply_op _ _ _ hw InputOp.clear _ (hreach pre))
        (window_fits_clear_key _ _ _ _)
  · intro ops s hs
    have h := hreach ops
    rw [hs] at h
    refine ⟨h.1, h.2.1, h.2.2.1, ?_⟩
    have h1 := h.1
    have h2 := h.2.1
    have h3 := h.2.2.1
    simp only [sub_uint24]
    omega
  · intro scans s hs
    obtain ⟨ops, hops⟩ := input_loop_eq_run_ops _ _ _ scans _ _ hs
    have h := hreach ops
    rw [← hops] at h
    have hge := (scroll_repair_aux get_char_width visible_buffer_width s.buffer
      s.curr_char_ptr _ s.first_visible_char rfl).1
    have hle := scroll_repair_le get_char_width visible_buffer_width s.buffer
      s.curr_char_ptr s.first_visible_char h.1
    have heq : (top_repair get_char_width visible_buffer_width s).first_visible_char
        = scroll_repair get_char_width visible_buffer_width s.buffer s.curr_char_ptr
            s.first_visible_char := by
      simp only [top_repair, cursor_repair_eq_scroll_repair _ _ _ _ _ _ rfl]
    rw [heq]
    exact ⟨hge, hle, h.2.1, h.2.2.1, window_fits_top_repair _ _ s,
      fun character => window_fits_insert_character _ _ _ character _
        (window_fits_top_repair _ _ s)⟩

/-- C1, amended, at the proportional sample font, the buffer of the example and a
window of 60 pixels: after `W`, `W`, `W`, `I`, `I`, `del` the window measures 70
pixels; the scroll repair brings it to 40 and the left-arrow that follows to 30. -/
theorem scroll_window_invariant_witness :
    ((∀ c, 2 * sample_width c ≤ 60) ∧ ((9 : Nat) + 1) * (60 + 1) < 16777216) ∧
      run_ops sample_width 9 60
          ([InputOp.insert 'W', InputOp.insert 'W', InputOp.insert 'W', InputOp.insert 'I',
              InputOp.insert 'I', InputOp.delete] ++ InputOp.repair :: [InputOp.left])
          initial_state
        = { buffer := ['W', 'W', 'W', 'I'], curr_char_ptr := 3, first_visible_char := 2 } ∧
      window_width sample_width ['W', 'W', 'W', 'I'] 3 2 = 30 ∧
      window_fits sample_width 60
        (run_ops sample_width 9 60
          ([InputOp.insert 'W', InputOp.insert 'W', InputOp.insert 'W', InputOp.insert 'I',
              InputOp.insert 'I', InputOp.delete] ++ InputOp.repair :: [InputOp.left])
          initial_state) := by
  have hw : ∀ c, 2 * sample_width c ≤ 60 := by
    intro c
    unfold sample_width
    split <;> omega
  have hrun : run_ops sample_width 9 60
      ([InputOp.insert 'W', InputOp.insert 'W', InputOp.insert 'W', InputOp.insert 'I',
          InputOp.insert 'I', InputOp.delete] ++ InputOp.repair :: [InputOp.left])
      initial_state
      = { buffer := ['W', 'W', 'W', 'I'], curr_char_ptr := 3, first_visible_char := 2 } := by
    simp only [List.cons_append, List.nil_append, run_ops, List.foldl, apply_op, top_repair,
      insert_character, cursor_repair_eval, scroll_repair_eval]
    decide
  exact ⟨⟨hw, by decide⟩, hrun, by decide,
    ((scroll_window_invariant sample_width 9 60 hw (by decide)).1
      [InputOp.insert 'W', InputOp.insert 'W', InputOp.insert 'W', InputOp.insert 'I',
        InputOp.insert 'I', InputOp.delete]
      [InputOp.left] (by decide)).2.1⟩

/-! ## The pointer ordering (C2) -/

/-- C2, as stated, fails: with the monospace provider and a window one pixel wide,
typing `A`, `B` and pressing left, left, right, left leaves `first_visible_char` one
past `buffer` and `curr_char_ptr` at `buffer`. -/
theorem pointer_order_broken_by_left_arrow :
    input_loop textio_os_GetGlyphWidth 9 1
        [key_scan 47, key_scan 39, left_scan, left_scan, right_scan, left_scan]
        initial_state
      = some { buffer := ['A', 'B'], curr_char_ptr := 0, first_visible_char := 1 } ∧
    run_ops textio_os_GetGlyphWidth 9 1
        [InputOp.insert 'A', InputOp.insert 'B', InputOp.left, InputOp.left, InputOp.right,
          InputOp.left] initial_state
      = { buffer := ['A', 'B'], curr_char_ptr := 0, first_visible_char := 1 } ∧
    ¬ (1 : Nat) ≤ 0 := by
  refine ⟨?_, ?_, by decide⟩
  · simp only [input_loop, input_iteration, top_repair, char_key, insert_character,
      cursor_repair_eval, scroll_repair_eval]
    decide
  · simp only [run_ops, List.foldl, apply_op, top_repair, insert_character,
      cursor_repair_eval, scroll_repair_eval]
    decide

/-- C2, amended: for every width provider and `visible_buffer_width` such that two
glyphs always fit in the window (`2 * get_char_width c ≤ visible_buffer_width` for
every character), after every sequence of operations from the initial empty field
(insert, delete, clear, left, right, scroll repair), and so in every state the loop
reaches, `first_visible_char ≤ curr_char_ptr ≤` length of the buffer contents. -/
theorem pointer_ordering (get_char_width : WidthProvider)
    (buffer_size visible_buffer_width : Nat)
    (hw : ∀ c, 2 * get_char_width c ≤ visible_buffer_width) :
    (∀ ops s,
        run_ops get_char_width buffer_size visible_buffer_width ops initial_state = s →
        s.first_visible_char ≤ s.curr_char_ptr ∧ s.curr_char_ptr ≤ s.buffer.length) ∧
      (∀ scans s,
        input_loop get_char_width buffer_size visible_buffer_width scans initial_state
          = some s →
        s.first_visible_char ≤ s.curr_char_ptr ∧ s.curr_char_ptr ≤ s.buffer.length) := by
  have key : ∀ ops s,
      run_ops get_char_width buffer_size visible_buffer_width ops initial_state = s →
      s.first_visible_char ≤ s.curr_char_ptr ∧ s.curr_char_ptr ≤ s.buffer.length := by
    intro ops s hs
    have h := field_invariant_run_ops get_char_width buffer_size visible_buffer_width hw ops
      initial_state (field_invariant_initial buffer_size)
    rw [hs] at h
    exact ⟨h.1, h.2.1⟩
  refine ⟨key, ?_⟩
  intro scans s hs
  obtain ⟨ops, hops⟩ := input_loop_eq_run_ops _ _ _ scans _ _ hs
  exact key ops s hops.symm

/-- C2, amended, at the proportional sample font and a window of 60 pixels. -/
theorem pointer_ordering_witness :
    (∀ c, 2 * sample_width c ≤ 60) ∧
      (run_ops sample_width 9 60 [InputOp.insert 'W', InputOp.insert 'I', InputOp.left,
          InputOp.delete] initial_state).first_visible_char
        ≤ (run_ops sample_width 9 60 [InputOp.insert 'W', InputOp.insert 'I', InputOp.left,
          InputOp.delete] initial_state).curr_char_ptr := by
  have hw : ∀ c, 2 * sample_width c ≤ 60 := by
    intro c
    unfold sample_width
    split <;> omega
  exact ⟨hw, ((pointer_ordering sample_width 9 60 hw).1 _ _ rfl).1⟩

/-! ## The delete step (C3) -/

/-- C3, as stated, fails in both directions.  With the monospace provider and a window
two pixels wide, typing `A`, `B`, `W` leaves `first_visible_char` at index 1 and the
cursor at index 3, two past it, and `del` still moves `first_visible_char` left, to
index 0.  With the cursor exactly one past a `first_visible_char` that is at `buffer`,
`del` does not move `first_visible_char`. -/
theorem del_key_moves_window_when_not_adjacent :
    input_loop textio_os_GetGlyphWidth 9 2 [key_scan 47, key_scan 39, key_scan 11]
        initial_state
      = some { buffer := ['A', 'B', 'W'], curr_char_ptr := 3, first_visible_char := 1 } ∧
    (3 : Nat) ≠ 1 + 1 ∧
    del_key textio_os_GetGlyphWidth 9
        { buffer := ['A', 'B', 'W'], curr_char_ptr := 3, first_visible_char := 1 }
      = { buffer := ['A', 'B'], curr_char_ptr := 2, first_visible_char := 0 } ∧
    input_loop textio_os_GetGlyphWidth 9 2 [key_scan 47] initial_state
      = some { buffer := ['A'], curr_char_ptr := 1, first_visible_char := 0 } ∧
    (1 : Nat) = 0 + 1 ∧
    del_key textio_os_GetGlyphWidth 9
        { buffer := ['A'], curr_char_ptr := 1, first_visible_char := 0 }
      = { buffer := [], curr_char_ptr := 0, first_visible_char := 0 } := by
  refine ⟨?_, by decide, by decide, ?_, by decide, by decide⟩
  · simp only [input_loop, input_iteration, top_repair, char_key, insert_character,
      cursor_repair_eval, scroll_repair_eval]
    decide
  · simp only [input_loop, input_iteration, top_repair, char_key, insert_character,
      cursor_repair_eval, scroll_repair_eval]
    decide

/-- C3, amended: when the cursor is not at the buffer start, the delete step moves
`first_visible_char` left by one exactly when `first_visible_char` is not at the buffer
start (wherever the cursor is), decrements the cursor by one, and applies
`textio_ShiftDeleteChar` at the new cursor position, which removes the character there
when the cursor was inside the string; when the cursor is at the buffer start the step
changes nothing. -/
theorem del_key_spec (get_char_width : WidthProvider) (buffer_size : Nat)
    (s : InputState) :
    (0 < s.curr_char_ptr →
        (del_key get_char_width buffer_size s).first_visible_char
            = (if 0 < s.first_visible_char then s.first_visible_char - 1
               else s.first_visible_char) ∧
          (del_key get_char_width buffer_size s).curr_char_ptr = s.curr_char_ptr - 1 ∧
          (del_key get_char_width buffer_size s).buffer
            = (textio_ShiftDeleteChar get_char_width s.buffer buffer_size
                (s.curr_char_ptr - 1)).2 ∧
          (s.curr_char_ptr ≤ s.buffer.length →
            (del_key get_char_width buffer_size s).buffer
              = s.buffer.eraseIdx (s.curr_char_ptr - 1))) ∧
      (s.curr_char_ptr = 0 → del_key get_char_width buffer_size s = s) := by
  constructor
  · intro h
    have hc : s.curr_char_ptr > 0 := h
    simp only [del_key, hc, if_true]
    refine ⟨trivial, trivial, trivial, ?_⟩
    intro hlen
    have hlt : s.curr_char_ptr - 1 < s.buffer.length := by omega
    simp only [textio_ShiftDeleteChar, hlt, if_true]
  · intro h
    simp [del_key, h]

/-! ## The character-key step (C4) -/

/-- C4: for an offset that is the sentinel `-1` or an index into the keymap, the
character-key step is defined; it advances the cursor by exactly one, and then repairs
the scroll window, if and only if the offset is not the sentinel, the keymap entry at
the offset is not NUL and `textio_InsertChar` at the cursor returns 0; otherwise the
key is dropped with `curr_char_ptr` and `first_visible_char` unchanged.  For the
sentinel the step is defined whatever the keymap: the keymap is not read. -/
theorem char_key_spec (get_char_width : WidthProvider)
    (buffer_size visible_buffer_width : Nat) (keymap : List Char) (offset : Int)
    (s : InputState) (h1 : -1 ≤ offset) (h2 : offset < keymap.length) :
    ∃ s1,
      char_key get_char_width buffer_size visible_buffer_width keymap offset s = some s1 ∧
      (s1.curr_char_ptr = s.curr_char_ptr + 1 ↔
        (offset ≠ -1 ∧
          ∃ character, keymap_at keymap offset = some character ∧ character ≠ NUL ∧
            (textio_InsertChar s.buffer buffer_size character s.curr_char_ptr).1 = false)) ∧
      (s1.curr_char_ptr = s.curr_char_ptr + 1 →
        s1.first_visible_char
          = scroll_repair get_char_width visible_buffer_width s1.buffer s1.curr_char_ptr
              s.first_visible_char) ∧
      (s1.curr_char_ptr ≠ s.curr_char_ptr + 1 →
        s1.curr_char_ptr = s.curr_char_ptr ∧ s1.first_visible_char = s.first_visible_char) ∧
      (offset = -1 →
        ∀ any_keymap,
          char_key get_char_width buffer_size visible_buffer_width any_keymap offset s
            = some s) := by
  by_cases hoff : offset > -1
  · have hnn : 0 ≤ offset := by omega
    have hlt : offset.toNat < keymap.length := by omega
    have hk : keymap_at keymap offset = some keymap[offset.toNat] := by
      simp only [keymap_at, hnn, if_true]
      rw [List.get?_eq_getElem?]
      exact List.getElem?_eq_getElem hlt
    have hne : offset ≠ -1 := by omega
    simp only [char_key, hoff, if_true, hk]
    refine ⟨_, rfl, ?_, ?_, ?_, ?_⟩
    · simp only [insert_character]
      by_cases hc : keymap[offset.toNat] = NUL
      · simp only [hc, ne_eq, not_true_eq_false, if_false]
        constructor
        · intro h; omega
        · rintro ⟨_, character, hch, hnz, _⟩
          simp only [Option.some.injEq] at hch
          exact absurd (hch ▸ rfl) hnz
      · simp only [ne_eq, hc, not_false_eq_true, if_true]
        cases hr : (textio_InsertChar s.buffer buffer_size keymap[offset.toNat]
            s.curr_char_ptr).1
        · simp only [Bool.not_false, if_true, true_iff]
          exact ⟨hne, _, rfl, hc, hr⟩
        · simp only [Bool.not_true, Bool.false_eq_true, if_false]
          constructor
          · intro h; omega
          · rintro ⟨_, character, hch, _, hf⟩
            simp only [Option.some.injEq] at hch
            rw [← hch, hr] at hf
            exact absurd hf (by decide)
    · simp only [insert_character]
      by_cases hc : keymap[offset.toNat] = NUL
      · simp only [hc, ne_eq, not_true_eq_false, if_false]
        intro h; omega
      · simp only [ne_eq, hc, not_false_eq_true, if_true]
        cases hr : (textio_InsertChar s.buffer buffer_size keymap[offset.toNat]
            s.curr_char_ptr).1
        · simp only [Bool.not_false, if_true]
          intro _; trivial
        · simp only [Bool.not_true, Bool.false_eq_true, if_false]
          intro h; omega
    · simp only [insert_character]
      by_cases hc : keymap[offset.toNat] = NUL
      · simp only [hc, ne_eq, not_true_eq_false, if_false]
        intro _; exact ⟨trivial, trivial⟩
      · simp only [ne_eq, hc, not_false_eq_true, if_true]
        cases hr : (textio_InsertChar s.buffer buffer_size keymap[offset.toNat]
            s.curr_char_ptr).1
        · simp only [Bool.not_false, if_true]
          intro h; exact absurd trivial h
        · simp only [Bool.not_true, Bool.false_eq_true, if_false]
          intro _; exact ⟨trivial, trivial⟩
    · intro h; omega
  · have hm : offset = -1 := by omega
    simp only [char_key, hoff, if_false]
    refine ⟨s, rfl, ?_, ?_, ?_, ?_⟩
    · constructor
      · intro h; omega
      · rintro ⟨hne, _⟩; exact absurd hm hne
    · intro h; omega
    · intro _; exact ⟨rfl, rfl⟩
    · intro _ _; trivial

/-- C4 at the keymap `letters`, with the key of `A` (offset 47) pressed in the initial
empty field. -/
theorem char_key_spec_witness :
    ((-1 : Int) ≤ 47 ∧ (47 : Int) < letters.length) ∧
      ∃ s1,
        char_key sample_width 9 50 letters 47 initial_state = some s1 ∧
        (s1.curr_char_ptr = initial_state.curr_char_ptr + 1 ↔
          ((47 : Int) ≠ -1 ∧
            ∃ character, keymap_at letters 47 = some character ∧ character ≠ NUL ∧
              (textio_InsertChar initial_state.buffer 9 character
                initial_state.curr_char_ptr).1 = false)) ∧
        (s1.curr_char_ptr = initial_state.curr_char_ptr + 1 →
          s1.first_visible_char
            = scroll_repair sample_width 50 s1.buffer s1.curr_char_ptr
                initial_state.first_visible_char) ∧
        (s1.curr_char_ptr ≠ initial_state.curr_char_ptr + 1 →
          s1.curr_char_ptr = initial_state.curr_char_ptr ∧
            s1.first_visible_char = initial_state.first_visible_char) ∧
        ((47 : Int) = -1 →
          ∀ any_keymap, char_key sample_width 9 50 any_keymap 47 initial_state
            = some initial_state) :=
  ⟨⟨by decide, by decide⟩,
    char_key_spec sample_width 9 50 letters 47 initial_state (by decide) (by decide)⟩

/-! ## The monospace field (C10) -/

/-- Under the monospace provider a span's width is its character count. -/
theorem textio_GetStringWidthL_os (buffer : List Char) :
    ∀ (num_chars string : Nat),
      textio_GetStringWidthL textio_os_GetGlyphWidth buffer string num_chars
        = num_chars % 16777216 := by
  intro n
  induction n with
  | zero => intro p; simp [textio_GetStringWidthL]
  | succ n ih =>
      intro p
      simp only [textio_GetStringWidthL, ih, to_uint24, textio_os_GetGlyphWidth]
      omega

theorem window_width_os (buffer : List Char) (curr_char_ptr first_visible_char : Nat)
    (h : first_visible_char ≤ curr_char_ptr) (hc : curr_char_ptr < 16777216) :
    window_width textio_os_GetGlyphWidth buffer curr_char_ptr first_visible_char
      = curr_char_ptr - first_visible_char := by
  simp only [window_width, textio_GetStringWidthL_os, sub_uint24]
  omega

theorem monospace_distance_apply_op (buffer_size visible_buffer_width : Nat)
    (hv : 2 ≤ visible_buffer_width) (hs : buffer_size + 1 < 16777216) (op : InputOp)
    (s : InputState) (h : field_invariant buffer_size s)
    (hd : s.curr_char_ptr - s.first_visible_char ≤ visible_buffer_width) :
    (apply_op textio_os_GetGlyphWidth buffer_size visible_buffer_width op s).curr_char_ptr
        - (apply_op textio_os_GetGlyphWidth buffer_size visible_buffer_width op
            s).first_visible_char
      ≤ visible_buffer_width := by
  have hw : ∀ c, 2 * textio_os_GetGlyphWidth c ≤ visible_buffer_width := by
    intro c
    simp only [textio_os_GetGlyphWidth]
    omega
  have hinv := field_invariant_apply_op textio_os_GetGlyphWidth buffer_size
    visible_buffer_width hw op s h
  obtain ⟨h1, h2, h3, h4, h5⟩ := h
  cases op with
  | repair =>
      have hge := (scroll_repair_aux textio_os_GetGlyphWidth visible_buffer_width s.buffer
        s.curr_char_ptr _ s.first_visible_char rfl).1
      simp only [apply_op, top_repair, cursor_repair_eq_scroll_repair _ _ _ _ _ _ rfl]
      omega
  | insert character =>
      have hfit := window_fits_insert_character textio_os_GetGlyphWidth buffer_size
        visible_buffer_width character s (by
          simp only [window_fits]
          rw [window_width_os _ _ _ h1 (by omega)]
          exact hd)
      obtain ⟨g1, g2, g3, _, _⟩ := hinv
      simp only [apply_op] at g1 g2 g3 ⊢
      simp only [window_fits] at hfit
      rw [window_width_os _ _ _ g1 (by omega)] at hfit
      exact hfit
  | delete =>
      simp only [apply_op, del_key]
      split
      · simp only
        split <;> omega
      · exact hd
  | clear =>
      simp only [apply_op, clear_key]
      omega
  | left =>
      simp only [apply_op, left_key]
      split
      · simp only
        split <;> omega
      · exact hd
  | right =>
      simp only [apply_op, right_key]
      by_cases hc : char_at s.buffer s.curr_char_ptr ≠ NUL
      · have hlt := char_at_ne_NUL_lt _ _ hc
        rw [if_pos hc]
        simp only [textio_GetStringWidthL_os, to_uint24, sub_uint24]
        split
        · omega
        · rename_i hno
          omega
      · rw [if_neg hc]
        exact hd

theorem monospace_invariant_run_ops (buffer_size visible_buffer_width : Nat)
    (hv : 2 ≤ visible_buffer_width) (hs : buffer_size + 1 < 16777216)
    (ops : List InputOp) :
    ∀ s, field_invariant buffer_size s →
      s.curr_char_ptr - s.first_visible_char ≤ visible_buffer_width →
      field_invariant buffer_size
          (run_ops textio_os_GetGlyphWidth buffer_size visible_buffer_width ops s) ∧
        (run_ops textio_os_GetGlyphWidth buffer_size visible_buffer_width ops
            s).curr_char_ptr
          - (run_ops textio_os_GetGlyphWidth buffer_size visible_buffer_width ops
              s).first_visible_char
          ≤ visible_buffer_width := by
  have hw : ∀ c, 2 * textio_os_GetGlyphWidth c ≤ visible_buffer_width := by
    intro c
    simp only [textio_os_GetGlyphWidth]
    omega
  induction ops with
  | nil => intro s h hd; exact ⟨h, hd⟩
  | cons op ops ih =>
      intro s h hd
      rw [run_ops_cons]
      exact ih _ (field_invariant_apply_op _ _ _ hw op s h)
        (monospace_distance_apply_op _ _ hv hs op s h hd)

/-- C10: under the monospace provider `textio_os_GetGlyphWidth`, for every
`visible_buffer_width ≥ 2` (and a `buffer_size` whose buffer is addressable with 24
bits), every state reached from the initial empty field by a sequence of operations
(insert, delete, clear, left, right, scroll repair), and so every state the loop
reaches, has `first_visible ≤ cursor ≤ length ≤ buffer_size`, `cursor - first_visible
≤ visible_buffer_width`, the measured width of the window equal to that character
count, and `first_visible = cursor` only at the buffer start. -/
theorem monospace_field_invariant (buffer_size visible_buffer_width : Nat)
    (hv : 2 ≤ visible_buffer_width) (hs : buffer_size + 1 < 16777216) :
    (∀ ops s,
        run_ops textio_os_GetGlyphWidth buffer_size visible_buffer_width ops initial_state
          = s →
        s.first_visible_char ≤ s.curr_char_ptr ∧
          s.curr_char_ptr ≤ s.buffer.length ∧
          s.buffer.length ≤ buffer_size ∧
          s.curr_char_ptr - s.first_visible_char ≤ visible_buffer_width ∧
          window_width textio_os_GetGlyphWidth s.buffer s.curr_char_ptr
              s.first_visible_char = s.curr_char_ptr - s.first_visible_char ∧
          (s.first_visible_char = s.curr_char_ptr →
            s.curr_char_ptr = 0 ∧ s.first_visible_char = 0)) ∧
      (∀ scans s,
        input_loop textio_os_GetGlyphWidth buffer_size visible_buffer_width scans
          initial_state = some s →
        s.first_visible_char ≤ s.curr_char_ptr ∧
          s.curr_char_ptr ≤ s.buffer.length ∧
          s.buffer.length ≤ buffer_size ∧
          s.curr_char_ptr - s.first_visible_char ≤ visible_buffer_width ∧
          window_width textio_os_GetGlyphWidth s.buffer s.curr_char_ptr
              s.first_visible_char = s.curr_char_ptr - s.first_visible_char ∧
          (s.first_visible_char = s.curr_char_ptr →
            s.curr_char_ptr = 0 ∧ s.first_visible_char = 0)) := by
  have key : ∀ ops s,
      run_ops textio_os_GetGlyphWidth buffer_size visible_buffer_width ops initial_state
        = s →
      s.first_visible_char ≤ s.curr_char_ptr ∧
        s.curr_char_ptr ≤ s.buffer.length ∧
        s.buffer.length ≤ buffer_size ∧
        s.curr_char_ptr - s.first_visible_char ≤ visible_buffer_width ∧
        window_width textio_os_GetGlyphWidth s.buffer s.curr_char_ptr
            s.first_visible_char = s.curr_char_ptr - s.first_visible_char ∧
        (s.first_visible_char = s.curr_char_ptr →
          s.curr_char_ptr = 0 ∧ s.first_visible_char = 0) := by
    intro ops s hrun
    obtain ⟨⟨h1, h2, h3, _, h5⟩, hd⟩ :=
      monospace_invariant_run_ops buffer_size visible_buffer_width hv hs ops initial_state
        (field_invariant_initial buffer_size) (by simp [initial_state])
    rw [hrun] at h1 h2 h3 h5 hd
    refine ⟨h1, h2, h3, hd, window_width_os _ _ _ h1 (by omega), ?_⟩
    intro heq
    have := h5 heq
    omega
  refine ⟨key, ?_⟩
  intro scans s hloop
  obtain ⟨ops, hops⟩ := input_loop_eq_run_ops _ _ _ scans _ _ hloop
  exact key ops s hops.symm

/-- C10 at the buffer of the example (`buffer_size = 9`) and a window three characters
wide, after typing `A`, `B`, `W`, `I` and pressing left. -/
theorem monospace_field_invariant_witness :
    ((2 : Nat) ≤ 3 ∧ (9 : Nat) + 1 < 16777216) ∧
      run_ops textio_os_GetGlyphWidth 9 3
          [InputOp.insert 'A', InputOp.insert 'B', InputOp.insert 'W', InputOp.insert 'I',
            InputOp.left] initial_state
        = { buffer := ['A', 'B', 'W', 'I'], curr_char_ptr := 3, first_visible_char := 1 } ∧
      (1 : Nat) ≤ 3 ∧ (3 : Nat) ≤ 4 ∧ (4 : Nat) ≤ 9 ∧ (3 : Nat) - 1 ≤ 3 ∧
      window_width textio_os_GetGlyphWidth ['A', 'B', 'W', 'I'] 3 1 = 3 - 1 := by
  have hrun : run_ops textio_os_GetGlyphWidth 9 3
      [InputOp.insert 'A', InputOp.insert 'B', InputOp.insert 'W', InputOp.insert 'I',
        InputOp.left] initial_state
      = { buffer := ['A', 'B', 'W', 'I'], curr_char_ptr := 3, first_visible_char := 1 } := by
    simp only [run_ops, List.foldl, apply_op, insert_character, scroll_repair_eval]
    decide
  obtain ⟨h1, h2, h3, h4, h5, _⟩ :=
    (monospace_field_invariant 9 3 (by decide) (by decide)).1 _ _ hrun
  exact ⟨⟨by decide, by decide⟩, hrun, h1, h2, h3, h4, h5⟩

/-! ## Termination of `print_text` (C9) -/

theorem print_text_loop_stop (GetLinePtr : textio_output_data_t → Nat → Nat → Nat)
    (GetLineWidth : textio_output_data_t → Nat → Nat → Nat)
    (output_data : textio_output_data_t) (text : List Char) (xPos max_line_width : Nat)
    (fuel curr_line yPos : Nat) (h : GetLinePtr output_data curr_line 1 = curr_line) :
    print_text_loop GetLinePtr GetLineWidth output_data text xPos max_line_width
      (fuel + 1) curr_line yPos = some [] := by
  simp [print_text_loop, h]

/-- From a `yPos` inside the window the loop draws at most one line per 13 pixels left
above 227. -/
theorem print_text_loop_in_window (GetLinePtr : textio_output_data_t → Nat → Nat → Nat)
    (GetLineWidth : textio_output_data_t → Nat → Nat → Nat)
    (output_data : textio_output_data_t) (text : List Char) (xPos max_line_width : Nat) :
    ∀ (fuel curr_line yPos : Nat), yPos ≤ 227 → (227 - yPos) / 13 + 1 ≤ fuel →
      ∃ lines,
        print_text_loop GetLinePtr GetLineWidth output_data text xPos max_line_width
          fuel curr_line yPos = some lines ∧
        lines.length ≤ (227 - yPos) / 13 + 1 ∧
        (GetLinePtr output_data curr_line 1 = curr_line → lines = []) ∧
        ∀ l ∈ lines, l.y ≤ 227 ∧ yPos ≤ l.y ∧
          GetLinePtr output_data l.curr_line 1 ≠ l.curr_line := by
  intro fuel
  induction fuel with
  | zero => intro curr_line yPos _ hf; omega
  | succ fuel ih =>
      intro curr_line yPos hy hf
      by_cases hend : curr_line = GetLinePtr output_data curr_line 1
      · refine ⟨[], ?_, by simp, fun _ => rfl, by simp⟩
        exact print_text_loop_stop _ _ _ _ _ _ _ _ _ hend.symm
      · have hwrap : to_uint8 (yPos + line_spacing) = yPos + 13 := by
          simp only [to_uint8, line_spacing]
          omega
        have hne : GetLinePtr output_data curr_line 1 ≠ curr_line := fun h => hend h.symm
        by_cases hlast : yPos + 13 > 227
        · refine ⟨[printed_line GetLineWidth output_data text xPos max_line_width curr_line
              (GetLinePtr output_data curr_line 1) yPos], ?_, by simp,
            fun h => absurd h hne, ?_⟩
          · simp only [print_text_loop, hend, if_false, hwrap]
            simp only [line_spacing]
            rw [if_pos (by omega)]
          · intro l hl
            simp only [List.mem_singleton] at hl
            subst hl
            exact ⟨hy, le_refl _, hne⟩
        · obtain ⟨rest, hrest, hlen, _, hall⟩ :=
            ih (GetLinePtr output_data curr_line 1) (yPos + 13) (by omega) (by omega)
          refine ⟨printed_line GetLineWidth output_data text xPos max_line_width curr_line
              (GetLinePtr output_data curr_line 1) yPos :: rest, ?_, ?_,
            fun h => absurd h hne, ?_⟩
          · simp only [print_text_loop, hend, if_false, hwrap]
            simp only [line_spacing]
            rw [if_neg (by omega), hrest]
            rfl
          · simp only [List.length_cons]
            omega
          · intro l hl
            simp only [List.mem_cons] at hl
            rcases hl with hl | hl
            · subst hl
              exact ⟨hy, le_refl _, hne⟩
            · obtain ⟨a, b, c⟩ := hall l hl
              exact ⟨a, by omega, c⟩

/-- C9: `print_text` stops whatever the text and whatever `textio_GetLinePtr` and
`textio_GetLineWidth` return: 19 passes of its loop always reach a `return`.  It
returns without drawing when `textio_GetLinePtr(data, text, 1)` is `text`, every drawn
line starts where `textio_GetLinePtr` moved on, and for an initial `yPos ≤ 227` every
line is drawn at `y ≤ 227`, `yPos += 13` never wraps in 8 bits, and at most
`(227 - yPos) / 13 + 1` lines are drawn. -/
theorem print_text_stops (GetLinePtr : textio_output_data_t → Nat → Nat → Nat)
    (GetLineWidth : textio_output_data_t → Nat → Nat → Nat) (LCD_WIDTH : Nat)
    (text : List Char) (xPos yPos max_line_width fuel : Nat)
    (hy : yPos < 256) (hf : 19 ≤ fuel) :
    ∃ lines,
      print_text GetLinePtr GetLineWidth LCD_WIDTH fuel text xPos yPos max_line_width
        = some lines ∧
      lines.length ≤ 19 ∧
      (GetLinePtr (TEXTIO_FONTLIB_OUTPUT_DATA LCD_WIDTH) 0 1 = 0 → lines = []) ∧
      (∀ l ∈ lines,
        GetLinePtr (TEXTIO_FONTLIB_OUTPUT_DATA LCD_WIDTH) l.curr_line 1 ≠ l.curr_line) ∧
      (yPos ≤ 227 →
        lines.length ≤ (227 - yPos) / 13 + 1 ∧
          ∀ l ∈ lines, l.y ≤ 227 ∧ to_uint8 (l.y + line_spacing) = l.y + line_spacing) := by
  have hy8 : to_uint8 yPos = yPos := by
    simp only [to_uint8]
    omega
  simp only [print_text, hy8]
  by_cases hin : yPos ≤ 227
  · obtain ⟨lines, hl, hlen, hstop, hall⟩ :=
      print_text_loop_in_window GetLinePtr GetLineWidth (TEXTIO_FONTLIB_OUTPUT_DATA LCD_WIDTH)
        text (to_uint24 xPos) (to_uint24 max_line_width) fuel 0 yPos hin (by omega)
    refine ⟨lines, hl, by omega, hstop, fun l hmem => (hall l hmem).2.2, fun _ => ⟨hlen, ?_⟩⟩
    intro l hmem
    have := (hall l hmem).1
    refine ⟨this, ?_⟩
    simp only [to_uint8, line_spacing]
    omega
  · obtain ⟨fuel1, rfl⟩ : ∃ k, fuel = k + 1 := ⟨fuel - 1, by omega⟩
    by_cases hend : 0 = GetLinePtr (TEXTIO_FONTLIB_OUTPUT_DATA LCD_WIDTH) 0 1
    · refine ⟨[], ?_, by simp, fun _ => rfl, by simp, fun h => absurd h hin⟩
      exact print_text_loop_stop _ _ _ _ _ _ _ _ _ hend.symm
    · have hne : GetLinePtr (TEXTIO_FONTLIB_OUTPUT_DATA LCD_WIDTH) 0 1 ≠ 0 :=
        fun h => hend h.symm
      by_cases hw : yPos + 13 < 256
      · have hwrap : to_uint8 (yPos + line_spacing) = yPos + 13 := by
          simp only [to_uint8, line_spacing]
          omega
        refine ⟨[printed_line GetLineWidth (TEXTIO_FONTLIB_OUTPUT_DATA LCD_WIDTH) text
            (to_uint24 xPos) (to_uint24 max_line_width) 0
            (GetLinePtr (TEXTIO_FONTLIB_OUTPUT_DATA LCD_WIDTH) 0 1) yPos], ?_, by simp,
          fun h => absurd h hne, ?_, fun h => absurd h hin⟩
        · simp only [print_text_loop, hend, if_false, hwrap]
          simp only [line_spacing]
          rw [if_pos (by omega)]
        · intro l hl
          simp only [List.mem_singleton] at hl
          subst hl
          exact hne
      · have hwrap : to_uint8 (yPos + line_spacing) = yPos + 13 - 256 := by
          simp only [to_uint8, line_spacing]
          omega
        obtain ⟨rest, hrest, hlen, _, hall⟩ :=
          print_text_loop_in_window GetLinePtr GetLineWidth
            (TEXTIO_FONTLIB_OUTPUT_DATA LCD_WIDTH) text (to_uint24 xPos)
            (to_uint24 max_line_width) fuel1
            (GetLinePtr (TEXTIO_FONTLIB_OUTPUT_DATA LCD_WIDTH) 0 1) (yPos + 13 - 256)
            (by omega) (by omega)
        refine ⟨printed_line GetLineWidth (TEXTIO_FONTLIB_OUTPUT_DATA LCD_WIDTH) text
            (to_uint24 xPos) (to_uint24 max_line_width) 0
            (GetLinePtr (TEXTIO_FONTLIB_OUTPUT_DATA LCD_WIDTH) 0 1) yPos :: rest, ?_, ?_,
          fun h => absurd h hne, ?_, fun h => absurd h hin⟩
        · simp only [print_text_loop, hend, if_false, hwrap]
          simp only [line_spacing]
          rw [if_neg (by omega), hrest]
          rfl
        · simp only [List.length_cons]
          omega
        · intro l hl
          simp only [List.mem_cons] at hl
          rcases hl with hl | hl
          · subst hl
            exact hne
          · exact (hall l hl).2.2

/-- C9 at the call of the example, `yPos = 5`, with a text whose every line is ten
characters long and never ends: 18 lines are drawn, the last at `y = 226`. -/
theorem print_text_stops_witness :
    ((5 : Nat) < 256 ∧ (19 : Nat) ≤ 19) ∧
      (print_text (fun _ curr_line _ => curr_line + 10) (fun _ _ _ => 0) 320 19 [] 0 5
          140).map (fun lines => lines.map (fun l => l.y))
        = some [5, 18, 31, 44, 57, 70, 83, 96, 109, 122, 135, 148, 161, 174, 187, 200,
            213, 226] ∧
      ∃ lines,
        print_text (fun _ curr_line _ => curr_line + 10) (fun _ _ _ => 0) 320 19 [] 0 5 140
          = some lines ∧
        lines.length ≤ (227 - 5) / 13 + 1 := by
  obtain ⟨lines, hl, _, _, _, h5⟩ :=
    print_text_stops (fun _ curr_line _ => curr_line + 10) (fun _ _ _ => 0) 320 [] 0 5 140
      19 (by decide) (by decide)
  exact ⟨⟨by decide, by decide⟩, by decide, lines, hl, (h5 (by decide)).1⟩

/-! ## `print_text` and its `max_line_width` argument (C11) -/

/-- With the left-margin-flush format a line is positioned at `xPos`, whatever
`max_line_width` and `textio_GetLineWidth` are. -/
theorem printed_line_left_flush (GetLineWidth : textio_output_data_t → Nat → Nat → Nat)
    (output_data : textio_output_data_t) (text : List Char) (xPos max_line_width : Nat)
    (curr_line next_line yPos : Nat)
    (h : output_data.print_format = TEXTIO_FORMAT_LEFT_MARGIN_FLUSH) :
    printed_line GetLineWidth output_data text xPos max_line_width curr_line next_line yPos
      = { curr_line := curr_line
          x := to_uint24 xPos
          y := yPos
          calls := draw_chars text curr_line next_line } := by
  simp [printed_line, print_text_x, h, TEXTIO_FORMAT_LEFT_MARGIN_FLUSH,
    TEXTIO_FORMAT_RIGHT_MARGIN_FLUSH, TEXTIO_FORMAT_CENTERED]

theorem print_text_loop_left_flush_eq (GetLinePtr : textio_output_data_t → Nat → Nat → Nat)
    (GetLineWidth1 GetLineWidth2 : textio_output_data_t → Nat → Nat → Nat)
    (output_data : textio_output_data_t) (text : List Char)
    (xPos max_line_width1 max_line_width2 : Nat)
    (h : output_data.print_format = TEXTIO_FORMAT_LEFT_MARGIN_FLUSH) :
    ∀ (fuel curr_line yPos : Nat),
      print_text_loop GetLinePtr GetLineWidth1 output_data text xPos max_line_width1
          fuel curr_line yPos
        = print_text_loop GetLinePtr GetLineWidth2 output_data text xPos max_line_width2
            fuel curr_line yPos := by
  intro fuel
  induction fuel with
  | zero => intro curr_line yPos; rfl
  | succ fuel ih =>
      intro curr_line yPos
      simp only [print_text_loop, printed_line_left_flush _ _ _ _ _ _ _ _ h, ih]

theorem print_text_loop_left_flush_x (GetLinePtr : textio_output_data_t → Nat → Nat → Nat)
    (GetLineWidth : textio_output_data_t → Nat → Nat → Nat)
    (output_data : textio_output_data_t) (text : List Char) (xPos max_line_width : Nat)
    (h : output_data.print_format = TEXTIO_FORMAT_LEFT_MARGIN_FLUSH) :
    ∀ (fuel curr_line yPos : Nat) (lines : List PrintedLine),
      print_text_loop GetLinePtr GetLineWidth output_data text xPos max_line_width
          fuel curr_line yPos = some lines →
      ∀ l ∈ lines, l.x = to_uint24 xPos := by
  intro fuel
  induction fuel with
  | zero =>
      intro curr_line yPos lines hl
      simp [print_text_loop] at hl
  | succ fuel ih =>
      intro curr_line yPos lines hl
      simp only [print_text_loop, printed_line_left_flush _ _ _ _ _ _ _ _ h] at hl
      by_cases hend : curr_line = GetLinePtr output_data curr_line 1
      · rw [if_pos hend] at hl
        simp only [Option.some.injEq] at hl
        subst hl
        intro l hmem
        simp at hmem
      · rw [if_neg hend] at hl
        by_cases hlast : to_uint8 (yPos + line_spacing) > 240 - line_spacing
        · rw [if_pos hlast] at hl
          simp only [Option.some.injEq] at hl
          subst hl
          intro l hmem
          simp only [List.mem_singleton] at hmem
          subst hmem
          rfl
        · rw [if_neg hlast] at hl
          cases hrest : print_text_loop GetLinePtr GetLineWidth output_data text xPos
              max_line_width fuel (GetLinePtr output_data curr_line 1)
              (to_uint8 (yPos + line_spacing)) with
          | none => simp [hrest] at hl
          | some rest =>
              simp only [hrest, Option.map_some', Option.some.injEq] at hl
              subst hl
              intro l hmem
              simp only [List.mem_cons] at hmem
              rcases hmem with hmem | hmem
              · subst hmem
                rfl
              · exact ih _ _ rest hrest l hmem

/-- C11: the output of `print_text` does not depend on its `max_line_width` argument:
for every text, `xPos`, `yPos` and any two values of `max_line_width` (and whatever
`textio_GetLineWidth` would return) the sequence of line starts, draw positions and
glyph calls is the same.  The descriptor passed to `textio_GetLinePtr` is
`TEXTIO_FONTLIB_OUTPUT_DATA`, whose `max_line_width` is `LCD_WIDTH` and whose
`print_format` is 1 (left-margin-flush), so every line is positioned at `x = xPos`. -/
theorem print_text_ignores_max_line_width
    (GetLinePtr : textio_output_data_t → Nat → Nat → Nat)
    (GetLineWidth1 GetLineWidth2 : textio_output_data_t → Nat → Nat → Nat)
    (LCD_WIDTH fuel : Nat) (text : List Char)
    (xPos yPos max_line_width1 max_line_width2 : Nat) :
    print_text GetLinePtr GetLineWidth1 LCD_WIDTH fuel text xPos yPos max_line_width1
        = print_text GetLinePtr GetLineWidth2 LCD_WIDTH fuel text xPos yPos max_line_width2 ∧
      (TEXTIO_FONTLIB_OUTPUT_DATA LCD_WIDTH).max_line_width = LCD_WIDTH ∧
      (TEXTIO_FONTLIB_OUTPUT_DATA LCD_WIDTH).print_format = TEXTIO_FORMAT_LEFT_MARGIN_FLUSH ∧
      (∀ w, print_text_x (TEXTIO_FONTLIB_OUTPUT_DATA LCD_WIDTH).print_format
          max_line_width1 (to_uint24 xPos) w = to_uint24 xPos) ∧
      (∀ lines,
        print_text GetLinePtr GetLineWidth1 LCD_WIDTH fuel text xPos yPos max_line_width1
          = some lines →
        ∀ l ∈ lines, l.x = to_uint24 xPos) := by
  have hfmt : (TEXTIO_FONTLIB_OUTPUT_DATA LCD_WIDTH).print_format
      = TEXTIO_FORMAT_LEFT_MARGIN_FLUSH := rfl
  refine ⟨?_, rfl, hfmt, ?_, ?_⟩
  · exact print_text_loop_left_flush_eq GetLinePtr GetLineWidth1 GetLineWidth2 _ text
      (to_uint24 xPos) (to_uint24 max_line_width1) (to_uint24 max_line_width2) hfmt fuel 0
      (to_uint8 yPos)
  · intro w
    simp [print_text_x, to_uint24, TEXTIO_FONTLIB_OUTPUT_DATA, TEXTIO_FORMAT_RIGHT_MARGIN_FLUSH,
      TEXTIO_FORMAT_CENTERED]
  · intro lines hl l hmem
    have hx := print_text_loop_left_flush_x GetLinePtr GetLineWidth1
      (TEXTIO_FONTLIB_OUTPUT_DATA LCD_WIDTH) text (to_uint24 xPos)
      (to_uint24 max_line_width1) hfmt fuel 0 (to_uint8 yPos) lines hl l hmem
    rw [hx]
    simp only [to_uint24]
    omega

/-- C11 at a two-line text, `xPos = 7`, `yPos = 200`: with `max_line_width` 140 and with
`max_line_width` 20 (narrower than either line, with a different line-width routine)
`print_text` draws the same two lines, at `x = 7`. -/
theorem print_text_ignores_max_line_width_witness :
    print_text (fun _ curr_line _ => if curr_line < 6 then curr_line + 3 else curr_line)
        (fun _ _ _ => 15) 320 19 ['a', 'b', TAB, 'c', 'd', NEWLINE] 7 200 140
      = some
          [{ curr_line := 0, x := 7, y := 200,
             calls := [DrawCall.DrawGlyph 'a', DrawCall.DrawGlyph 'b',
               DrawCall.DrawString [' ', ' ', ' ', ' ']] },
           { curr_line := 3, x := 7, y := 213,
             calls := [DrawCall.DrawGlyph 'c', DrawCall.DrawGlyph 'd'] }] ∧
      print_text (fun _ curr_line _ => if curr_line < 6 then curr_line + 3 else curr_line)
          (fun _ _ _ => 15) 320 19 ['a', 'b', TAB, 'c', 'd', NEWLINE] 7 200 140
        = print_text (fun _ curr_line _ => if curr_line < 6 then curr_line + 3 else curr_line)
            (fun _ _ _ => 90) 320 19 ['a', 'b', TAB, 'c', 'd', NEWLINE] 7 200 20 :=
  ⟨by decide,
    (print_text_ignores_max_line_width
      (fun _ curr_line _ => if curr_line < 6 then curr_line + 3 else curr_line)
      (fun _ _ _ => 15) (fun _ _ _ => 90) 320 19 ['a', 'b', TAB, 'c', 'd', NEWLINE] 7 200
      140 20).1⟩

end TextIOC
